import Mathlib

/-!
# Verification of the char-morphing-scripts prompt-to-morph mapping layer

This file gives a shallow embedding, in Lean 4, of the keyword-to-parameter
mapping layer of the repository: the lexical mapper of `second_script.py`,
the first-variant mapper of `basic_first_script.py`, the enhanced mapper and
request bridge of `blender_bridge.py`, and the morph appliers of both
scripts.  Prompts are `String`s, parameter values are rationals (`ℚ`), and
the Python `dict` accumulating parameter changes is an association list with
Python's insertion semantics (overwrite in place, else append).  Fallible
code (Python's `KeyError` on a missing antonym lookup) is modelled with
`Option`.  Theorems at the end of the file settle the specification claims.
-/

/-! ## Python string primitives -/

/-- `startsWith n h` is true when the list `n` is an initial segment of `h`. -/
def startsWith : List Char → List Char → Bool
  | [], _ => true
  | _ :: _, [] => false
  | a :: as, b :: bs => a == b && startsWith as bs

/-- `subListOf n h` is true when `n` occurs contiguously inside `h`; this is
Python's `n in h` substring test on strings (as lists of characters). -/
def subListOf (n : List Char) : List Char → Bool
  | [] => n.isEmpty
  | c :: t => startsWith n (c :: t) || subListOf n t

/-- Python's `needle in hay` substring containment on strings. -/
def pyIn (needle hay : String) : Bool := subListOf needle.data hay.data

/-- Fuelled auxiliary for substring replacement (fuel bounds the scan). -/
def replAux (needle repl : List Char) : Nat → List Char → List Char
  | 0, l => l
  | _ + 1, [] => []
  | fuel + 1, c :: rest =>
    if !needle.isEmpty && startsWith needle (c :: rest) then
      repl ++ replAux needle repl fuel (rest.drop (needle.length - 1))
    else
      c :: replAux needle repl fuel rest

/-- Replace every occurrence of `needle` in `s` by `repl`, left to right.
This models Python's `str.format` on the templates of this repository, each
of which contains at most one placeholder occurrence. -/
def pyReplace (s needle repl : String) : String :=
  ⟨replAux needle.data repl.data s.data.length s.data⟩

/-- Python's `str.lower` (ASCII case folding, as used by the prompts here). -/
def strLower (s : String) : String := ⟨s.data.map Char.toLower⟩

/-- A word character in the sense of the regex `\w` on ASCII text. -/
def isWordChar (c : Char) : Bool := c.isAlphanum || c == '_'

/-- Split a character list into maximal runs of characters satisfying `p`;
the accumulator holds the current (reversed) run. -/
def runsAux (p : Char → Bool) : List Char → List Char → List (List Char)
  | [], acc => if acc.isEmpty then [] else [acc.reverse]
  | c :: rest, acc =>
    if p c then runsAux p rest (c :: acc)
    else if acc.isEmpty then runsAux p rest []
    else acc.reverse :: runsAux p rest []

/-- Tokenisation used by `second_script.py`: all maximal word-character runs
of the string (the regex findall of word sequences). -/
def pyFindallWords (s : String) : List String :=
  (runsAux isWordChar s.data []).map fun l => ⟨l⟩

/-- Python's `str.split()` with no argument: maximal non-whitespace runs,
used by `basic_first_script.py`. -/
def pySplit (s : String) : List String :=
  (runsAux (fun c => !c.isWhitespace) s.data []).map fun l => ⟨l⟩

/-! ## Python dict as an association list -/

/-- The parameter-change set: parameter name to value, insertion ordered. -/
abbrev Changes := List (String × ℚ)

/-- Python `d[k] = v` on a dict rendered as an association list: overwrite
the entry in place when the key is present, otherwise append. -/
def dinsert (k : String) (v : ℚ) (d : Changes) : Changes :=
  bif d.any fun p => p.1 == k then
    d.map fun p => bif p.1 == k then (k, v) else p
  else
    d ++ [(k, v)]

theorem lookup_cons_changes (k a : String) (b : ℚ) (t : Changes) :
    List.lookup k ((a, b) :: t) = bif k == a then some b else List.lookup k t := by
  cases hb : k == a <;> simp [List.lookup, hb]

theorem lookup_map_overwrite (k : String) (v : ℚ) (d : Changes) :
    List.lookup k (d.map fun p => bif p.1 == k then (k, v) else p) =
      (List.lookup k d).map fun _ => v := by
  induction d with
  | nil => rfl
  | cons p t ih =>
    rcases p with ⟨a, b⟩
    cases hp : a == k
    · have h2 : (k == a) = false := beq_eq_false_iff_ne.mpr
        (Ne.symm (ne_of_beq_false hp))
      simp [lookup_cons_changes, hp, h2, ih]
    · have h2 : (k == a) = true := beq_iff_eq.mpr (beq_iff_eq.mp hp).symm
      simp [lookup_cons_changes, hp, h2, ih]

theorem lookup_map_overwrite_ne {k' k : String} (h : k' ≠ k) (v : ℚ) (d : Changes) :
    List.lookup k' (d.map fun p => bif p.1 == k then (k, v) else p) =
      List.lookup k' d := by
  induction d with
  | nil => rfl
  | cons p t ih =>
    rcases p with ⟨a, b⟩
    cases hp : a == k
    · simp only [List.map_cons, hp, cond_false]
      cases hk' : k' == a <;> simp [lookup_cons_changes, hk', ih]
    · have ha : a = k := beq_iff_eq.mp hp
      have h2 : (k' == k) = false := beq_eq_false_iff_ne.mpr h
      have h3 : (k' == a) = false := beq_eq_false_iff_ne.mpr (ha ▸ h)
      simp [lookup_cons_changes, hp, h2, h3, ih]

theorem any_key_iff_lookup_isSome (k : String) (d : Changes) :
    (d.any fun p => p.1 == k) = (List.lookup k d).isSome := by
  induction d with
  | nil => rfl
  | cons p t ih =>
    rcases p with ⟨a, b⟩
    cases hp : a == k
    · have h2 : (k == a) = false := beq_eq_false_iff_ne.mpr
        (Ne.symm (ne_of_beq_false hp))
      simp [lookup_cons_changes, hp, h2, ih]
    · have h2 : (k == a) = true := beq_iff_eq.mpr (beq_iff_eq.mp hp).symm
      simp [lookup_cons_changes, hp, h2]

theorem lookup_append_changes (k : String) (d e : Changes) :
    List.lookup k (d ++ e) =
      ((List.lookup k d).rec (List.lookup k e) fun v => some v) := by
  induction d with
  | nil => rfl
  | cons p t ih =>
    rcases p with ⟨a, b⟩
    cases hp : k == a
    · simp [lookup_cons_changes, hp, ih]
    · simp [lookup_cons_changes, hp]

theorem lookup_dinsert_self (k : String) (v : ℚ) (d : Changes) :
    List.lookup k (dinsert k v d) = some v := by
  unfold dinsert
  cases hc : d.any fun p => p.1 == k
  · rw [cond_false, lookup_append_changes]
    have hn : List.lookup k d = none := by
      rw [any_key_iff_lookup_isSome] at hc
      exact Option.not_isSome_iff_eq_none.mp (by simp [hc])
    have h1 : (k == k) = true := beq_iff_eq.mpr rfl
    simp [hn, lookup_cons_changes, h1]
  · rw [cond_true, lookup_map_overwrite]
    rw [any_key_iff_lookup_isSome] at hc
    rcases Option.isSome_iff_exists.mp hc with ⟨w, hw⟩
    simp [hw]

theorem lookup_dinsert_ne {k' k : String} (h : k' ≠ k) (v : ℚ) (d : Changes) :
    List.lookup k' (dinsert k v d) = List.lookup k' d := by
  unfold dinsert
  cases hc : d.any fun p => p.1 == k
  · rw [cond_false, lookup_append_changes]
    have h1 : (k' == k) = false := beq_eq_false_iff_ne.mpr h
    cases hl : List.lookup k' d
    · simp [lookup_cons_changes, h1, List.lookup]
    · rfl
  · rw [cond_true, lookup_map_overwrite_ne h]

theorem mem_dinsert {p : String × ℚ} {k : String} {v : ℚ} {d : Changes}
    (h : p ∈ dinsert k v d) : p = (k, v) ∨ p ∈ d := by
  unfold dinsert at h
  cases hc : d.any fun q => q.1 == k <;> rw [hc] at h
  · rw [cond_false] at h
    rcases List.mem_append.mp h with hm | hm
    · right; exact hm
    · left; simpa using hm
  · rw [cond_true] at h
    rcases List.mem_map.mp h with ⟨q, hq, he⟩
    cases hqk : q.1 == k <;> rw [hqk] at he
    · right; rw [cond_false] at he; exact he ▸ hq
    · left; rw [cond_true] at he; exact he.symm

/-- Inserting a list of keys all at one value, as the template loops do. -/
def dinsertAll (ks : List String) (v : ℚ) (d : Changes) : Changes :=
  ks.foldl (fun acc k => dinsert k v acc) d

theorem mem_dinsertAll {p : String × ℚ} {ks : List String} {v : ℚ} {d : Changes}
    (h : p ∈ dinsertAll ks v d) : (∃ k ∈ ks, p = (k, v)) ∨ p ∈ d := by
  induction ks generalizing d with
  | nil => right; exact h
  | cons k t ih =>
    rcases ih (d := dinsert k v d) h with ⟨k', hk', he⟩ | hm
    · exact Or.inl ⟨k', List.mem_cons_of_mem _ hk', he⟩
    · rcases mem_dinsert hm with he | hm'
      · exact Or.inl ⟨k, List.mem_cons_self _ _, he⟩
      · exact Or.inr hm'

theorem lookup_dinsertAll_ne {k' : String} {ks : List String} (h : k' ∉ ks)
    (v : ℚ) (d : Changes) : List.lookup k' (dinsertAll ks v d) = List.lookup k' d := by
  induction ks generalizing d with
  | nil => rfl
  | cons k t ih =>
    have hk : k' ≠ k := fun he => h (he ▸ List.mem_cons_self _ _)
    have ht : k' ∉ t := fun hm => h (List.mem_cons_of_mem _ hm)
    calc List.lookup k' (dinsertAll t v (dinsert k v d))
        = List.lookup k' (dinsert k v d) := ih ht _
      _ = List.lookup k' d := lookup_dinsert_ne hk v d

/-- Instantiate a compound template for a body part: Python's
`template.format(part=part)`. -/
def formatPart (template part : String) : String :=
  pyReplace template "{part}" part

/-- Instantiate a feature template for the detected ethnicity: Python's
`template.format(ethnicity=detected_ethnicity)`. -/
def formatEth (template ethnicity : String) : String :=
  pyReplace template "{ethnicity}" ethnicity

/-! ## `second_script.py`: configuration tables -/

namespace SecondScript

/-- Default ethnicity used when no concept word is in the prompt. -/
def DEFAULT_ETHNICITY : String := "Caucasian"

/-- `CONCEPT_MAP`: prompt word to shape-key concept text, in the source's
insertion (iteration) order. -/
def CONCEPT_MAP : List (String × String) :=
  [("caucasian", "Caucasian"), ("asian", "Asian"), ("african", "African"),
   ("elf", "Elf"), ("dwarf", "Dwarf")]

def CONCEPT_SHAPE_KEY_PREFIX : String := "L1_"

/-- `COMPOUND_MAP`: keyword to shape-key templates with values.  Each Python
value is a dict from template to value, rendered as an association list. -/
def COMPOUND_MAP : List (String × List (String × ℚ)) :=
  [("muscular", [("L2__{part}_Mass-Tone_min-max", 1)]),
   ("toned",    [("L2__{part}_Mass-Tone_min-max", 7/10)]),
   ("skinny",   [("L2__{part}_Mass-Tone_min-min", 8/10)]),
   ("heavy",    [("L2__{part}_Mass-Tone_max-min", 7/10)]),
   ("fat",      [("L2__{part}_Mass-Tone_max-min", 1)]),
   ("bulky",    [("L2__{part}_Mass-Tone_max-max", 8/10)])]

/-- `COMPOUND_PARTS`: the fixed body-part list. -/
def COMPOUND_PARTS : List String :=
  ["Abdomen", "Arms_Upperarm", "Arms_Forearm", "Chest", "Legs_Upperlegs",
   "Legs_Lowerlegs", "Pelvis_Gluteus", "Shoulders"]

/-- `FEATURE_MAP`: feature noun to modifier to one or more shape-key
templates.  In the source a value is either a single string or a list of
strings and is normalised to a list before use (the `isinstance` check);
here every value is already the normalised list. -/
def FEATURE_MAP : List (String × List (String × List String)) :=
  [("chin",
    [("long", ["L2_{ethnicity}_Chin_SizeZ_max"]),
     ("short", ["L2_{ethnicity}_Chin_SizeZ_min"]),
     ("wide", ["L2_{ethnicity}_Chin_SizeX_max"]),
     ("narrow", ["L2_{ethnicity}_Chin_SizeX_min"]),
     ("prominent", ["L2_{ethnicity}_Chin_Prominence_max"]),
     ("cleft", ["L2_{ethnicity}_Chin_Cleft_max"])]),
   ("lips",
    [("full", ["L2_{ethnicity}_Mouth_UpperlipVolume_max",
               "L2_{ethnicity}_Mouth_LowerlipVolume_max"]),
     ("thin", ["L2_{ethnicity}_Mouth_UpperlipVolume_min",
               "L2_{ethnicity}_Mouth_LowerlipVolume_min"])]),
   ("eyes",
    [("big", ["L2__Eyes_Size_max"]),
     ("large", ["L2__Eyes_Size_max"]),
     ("small", ["L2__Eyes_Size_min"]),
     ("wide-set", ["L2_{ethnicity}_Eyes_PosX_max"]),
     ("narrow-set", ["L2_{ethnicity}_Eyes_PosX_min"])]),
   ("nose",
    [("long", ["L2_{ethnicity}_Nose_SizeY_max"]),
     ("short", ["L2_{ethnicity}_Nose_SizeY_min"]),
     ("wide", ["L2_{ethnicity}_Nose_BaseSizeX_max"]),
     ("thin", ["L2_{ethnicity}_Nose_BridgeSizeX_min"]),
     ("pointy", ["L2_{ethnicity}_Nose_TipSize_min"]),
     ("upturned", ["L2_{ethnicity}_Nose_TipAngle_max"])]),
   ("jaw",
    [("strong", ["L2_{ethnicity}_Jaw_Angle_min"]),
     ("wide", ["L2_{ethnicity}_Jaw_ScaleX_max"]),
     ("narrow", ["L2_{ethnicity}_Jaw_ScaleX_min"])]),
   ("ears",
    [("big", ["L2_{ethnicity}_Ears_SizeX_max", "L2_{ethnicity}_Ears_SizeY_max"]),
     ("small", ["L2_{ethnicity}_Ears_SizeX_min", "L2_{ethnicity}_Ears_SizeY_min"]),
     ("pointed", ["L2__Fantasy_EarsPointed_max"])]),
   ("shoulders",
    [("broad", ["L2__Shoulders_SizeX_max"]),
     ("narrow", ["L2__Shoulders_SizeX_min"])]),
   ("waist",
    [("wide", ["L2__Waist_Size_max"]),
     ("thin", ["L2__Waist_Size_min"]),
     ("narrow", ["L2__Waist_Size_min"])]),
   ("torso",
    [("long", ["L2__Torso_Length_max"]),
     ("short", ["L2__Torso_Length_min"])]),
   ("arms",
    [("long", ["L2__Arms_UpperarmLength_max", "L2__Arms_ForearmLength_max"]),
     ("short", ["L2__Arms_UpperarmLength_min", "L2__Arms_ForearmLength_min"])]),
   ("legs",
    [("long", ["L2__Legs_UpperlegLength_max", "L2__Legs_LowerlegLength_max"]),
     ("short", ["L2__Legs_UpperlegLength_min", "L2__Legs_LowerlegLength_min"])])]

/-- `INTENSITY_MAP`: adverb to multiplier. -/
def INTENSITY_MAP : List (String × ℚ) :=
  [("slightly", 3/10), ("somewhat", 5/10), ("very", 9/10), ("extremely", 1)]

/-- `NEGATION_WORDS`. -/
def NEGATION_WORDS : List String := ["no", "not", "without"]

def DEFAULT_VALUE : ℚ := 7/10

/-- `ANTONYM_MAP`: modifier to antonym; `none` is the Python `None` sentinel
meaning "no opposite, set value to 0". -/
def ANTONYM_MAP : List (String × Option String) :=
  [("long", some "short"), ("short", some "long"), ("wide", some "narrow"),
   ("narrow", some "wide"), ("big", some "small"), ("large", some "small"),
   ("small", some "big"), ("full", some "thin"), ("thin", some "full"),
   ("broad", some "narrow"), ("pointed", none), ("cleft", none)]

/-! ## `second_script.py`: the lexical mapper -/

/-- Step 1, concept detection: the first `CONCEPT_MAP` entry (in the dict's
iteration order) whose keyword occurs among the prompt words. -/
def conceptFind (words : List String) : Option (String × String) :=
  CONCEPT_MAP.find? fun p => words.contains p.1

/-- The ethnicity used for template substitution afterwards. -/
def detectedEthnicity (words : List String) : String :=
  match conceptFind words with
  | some p => p.2
  | none => DEFAULT_ETHNICITY

/-- Step 1's contribution to the change set: the category-activation shape
key at 1.0 when a concept was detected. -/
def conceptChanges (words : List String) : Changes :=
  match conceptFind words with
  | some p => dinsert (CONCEPT_SHAPE_KEY_PREFIX ++ p.2) 1 []
  | none => []

/-- One body-part check of the compound inner loop: when the next word is a
substring of the lowercased part name, emit all of the keyword's morphs for
that part. -/
def compoundPartStep (morphs : List (String × ℚ)) (nextWord : String)
    (st : Changes × Bool) (part : String) : Changes × Bool :=
  bif pyIn nextWord (strLower part) then
    (morphs.foldl (fun d tv => dinsert (formatPart tv.1 part) tv.2 d) st.1, true)
  else st

/-- One index of the compound keyword scan: fires when the word at `i` is
the keyword and `i` is not the last position. -/
def compoundIdxStep (keyword : String) (morphs : List (String × ℚ))
    (words : List String) (st : Changes × Bool) (i : Nat) : Changes × Bool :=
  bif words.getD i "" == keyword && decide (i < words.length - 1) then
    COMPOUND_PARTS.foldl (compoundPartStep morphs (words.getD (i + 1) "")) st
  else st

/-- Whole-body emission: all morphs for every part in `COMPOUND_PARTS`. -/
def compoundAllParts (morphs : List (String × ℚ)) (d : Changes) : Changes :=
  COMPOUND_PARTS.foldl
    (fun d part => morphs.foldl (fun d tv => dinsert (formatPart tv.1 part) tv.2 d) d) d

/-- Step 2's body for one `COMPOUND_MAP` entry whose keyword occurs among
the words: scan for "keyword part" adjacencies; if none matched, apply the
morphs to the whole body. -/
def compoundEntry (keyword : String) (morphs : List (String × ℚ))
    (words : List String) (d : Changes) : Changes :=
  let st := (List.range words.length).foldl (compoundIdxStep keyword morphs words) (d, false)
  bif st.2 then st.1 else compoundAllParts morphs st.1

/-- Step 2, the whole compound-keyword pass. -/
def compoundPass (words : List String) (d : Changes) : Changes :=
  COMPOUND_MAP.foldl
    (fun d p => bif words.contains p.1 then compoundEntry p.1 p.2 words d else d) d

/-- The modifier candidate for a feature noun at index `i`: the word at
`i - 1`, or the hyphen-joined pair of the words at `i - 2` and `i - 1` when
that joined form is itself a key of the feature's modifier table. -/
def featureModifier (modMap : List (String × List String))
    (words : List String) (i : Nat) : String :=
  let m0 := words.getD (i - 1) ""
  let joined := words.getD (i - 2) "" ++ "-" ++ m0
  if 1 < i ∧ (List.lookup joined modMap).isSome then joined else m0

/-- The intensity adverb lookup at `i - 2` (only when such a position
exists). -/
def featureIntensity (words : List String) (i : Nat) : Option ℚ :=
  if 1 < i then List.lookup (words.getD (i - 2) "") INTENSITY_MAP else none

/-- The value before negation handling: the intensity multiplier when an
intensity word precedes the modifier, the default 0.7 otherwise. -/
def featureBaseValue (words : List String) (i : Nat) : ℚ :=
  match featureIntensity words i with
  | some v => v
  | none => DEFAULT_VALUE

/-- Negation detection: a negation word directly before the modifier, or
directly before an intensity word that precedes the modifier. -/
def featureNegated (words : List String) (i : Nat) : Bool :=
  match featureIntensity words i with
  | some _ => decide (2 < i) && NEGATION_WORDS.contains (words.getD (i - 3) "")
  | none => decide (1 < i) && NEGATION_WORDS.contains (words.getD (i - 2) "")

/-- Negation handling: on a negated modifier, substitute the antonym when
one exists in `ANTONYM_MAP`, otherwise force the value to 0. -/
def featureResolved (modMap : List (String × List String))
    (words : List String) (i : Nat) : String × ℚ :=
  bif featureNegated words i then
    match List.lookup (featureModifier modMap words i) ANTONYM_MAP with
    | some (some a) => (a, featureBaseValue words i)
    | _ => (featureModifier modMap words i, 0)
  else (featureModifier modMap words i, featureBaseValue words i)

/-- Step 3's body at one word index.  Returns `none` when the antonym
substitution produced a modifier that is missing from the feature's table
(a Python `KeyError` aborting the whole call). -/
def featureStep (ethnicity : String) (words : List String) (d : Changes)
    (i : Nat) : Option Changes :=
  match List.lookup (words.getD i "") FEATURE_MAP with
  | none => some d
  | some modMap =>
    if 0 < i then
      if (List.lookup (featureModifier modMap words i) modMap).isSome then
        match List.lookup (featureResolved modMap words i).1 modMap with
        | some templates =>
          some (templates.foldl
            (fun d t =>
              dinsert (formatEth t ethnicity) (featureResolved modMap words i).2 d)
            d)
        | none => none
      else some d
    else some d

/-- Step 3, the feature-modifier pass over all word indices. -/
def featurePassIdx (ethnicity : String) (words : List String) :
    List Nat → Changes → Option Changes
  | [], d => some d
  | i :: rest, d =>
    match featureStep ethnicity words d i with
    | none => none
    | some d2 => featurePassIdx ethnicity words rest d2

def featurePass (ethnicity : String) (words : List String) (d : Changes) :
    Option Changes :=
  featurePassIdx ethnicity words (List.range words.length) d

/-- The accumulated change set of `process_and_apply_prompt` for a token
list (`none` models the Python `KeyError` crash on a missing antonym
lookup). -/
def analyzeTokens (words : List String) : Option Changes :=
  featurePass (detectedEthnicity words) words
    (compoundPass words (conceptChanges words))

/-- The accumulated change set of `process_and_apply_prompt` for a prompt
string: lower-case, tokenize into word runs, analyze. -/
def processPromptChanges (prompt : String) : Option Changes :=
  analyzeTokens (pyFindallWords (strLower prompt))

end SecondScript

/-! ## Morph appliers and shape-key state

A character object is modelled by the list of shape-key names it exposes
and a value assignment for names.  `apply_morph` of `second_script.py`
stores the raw value; `apply_morph` of `blender_bridge.py` stores
`min(1.0, value)`.  A missing shape key leaves the state unchanged. -/

/-- `reset_character_shape_keys`: every exposed shape key goes to 0.0. -/
def resetShapeKeys (exposed : List String) (st : String → ℚ) : String → ℚ :=
  fun k => bif exposed.contains k then 0 else st k

/-- `apply_morph` of `second_script.py` (also `basic_first_script.py`):
stores the value as given when the shape key exists. -/
def applyMorphSS (exposed : List String) (st : String → ℚ)
    (name : String) (v : ℚ) : String → ℚ :=
  bif exposed.contains name then (fun k => bif k == name then v else st k) else st

/-- `apply_morph` of `blender_bridge.py`: stores `min(1.0, value)` when the
shape key exists. -/
def applyMorphBridge (exposed : List String) (st : String → ℚ)
    (name : String) (v : ℚ) : String → ℚ :=
  bif exposed.contains name then (fun k => bif k == name then min 1 v else st k) else st

/-- The application phase of `process_and_apply_prompt`: reset all exposed
shape keys to 0.0, then apply every accumulated change in order. -/
def applyChangeSet (exposed : List String) (changes : Changes)
    (st : String → ℚ) : String → ℚ :=
  changes.foldl (fun s kv => applyMorphSS exposed s kv.1 kv.2)
    (resetShapeKeys exposed st)

theorem applyMorphSS_not_exposed {exposed : List String} {k : String}
    (hk : exposed.contains k = false) (st : String → ℚ) (name : String) (v : ℚ) :
    applyMorphSS exposed st name v k = st k := by
  unfold applyMorphSS
  cases hn : exposed.contains name
  · simp
  · have : (k == name) = false := by
      cases he : k == name
      · rfl
      · rw [beq_iff_eq.mp he] at hk
        rw [hk] at hn
        exact absurd hn (by simp)
    simp [this]

theorem applyChangeSet_not_exposed {exposed : List String} {k : String}
    (hk : exposed.contains k = false) (changes : Changes) (st : String → ℚ) :
    applyChangeSet exposed changes st k = st k := by
  unfold applyChangeSet
  have base : resetShapeKeys exposed st k = st k := by
    unfold resetShapeKeys
    rw [hk, cond_false]
  have main : ∀ (l : Changes) (s : String → ℚ), s k = st k →
      (l.foldl (fun s kv => applyMorphSS exposed s kv.1 kv.2) s) k = st k := by
    intro l
    induction l with
    | nil => intro s hs; exact hs
    | cons kv t ih =>
      intro s hs
      rw [List.foldl_cons]
      refine ih _ ?_
      show applyMorphSS exposed s kv.1 kv.2 k = st k
      rw [applyMorphSS_not_exposed hk, hs]
  exact main _ _ base

/-- States that agree on all exposed shape keys. -/
def agreeOnExposed (exposed : List String) (s₁ s₂ : String → ℚ) : Prop :=
  ∀ k, exposed.contains k = true → s₁ k = s₂ k

theorem applyMorphSS_agree {exposed : List String} {s₁ s₂ : String → ℚ}
    (h : agreeOnExposed exposed s₁ s₂) (name : String) (v : ℚ) :
    agreeOnExposed exposed (applyMorphSS exposed s₁ name v)
      (applyMorphSS exposed s₂ name v) := by
  intro k hk
  unfold applyMorphSS
  cases hn : exposed.contains name
  · simpa using h k hk
  · cases he : k == name <;> simp [he, h k hk]

theorem applyChangeSet_agree (exposed : List String) (changes : Changes)
    (st st' : String → ℚ) :
    agreeOnExposed exposed (applyChangeSet exposed changes st)
      (applyChangeSet exposed changes st') := by
  unfold applyChangeSet
  have base : agreeOnExposed exposed (resetShapeKeys exposed st)
      (resetShapeKeys exposed st') := by
    intro k hk
    unfold resetShapeKeys
    rw [hk, cond_true, cond_true]
  generalize resetShapeKeys exposed st = s₁ at base ⊢
  generalize resetShapeKeys exposed st' = s₂ at base ⊢
  induction changes generalizing s₁ s₂ with
  | nil => exact base
  | cons kv t ih => exact ih _ _ (applyMorphSS_agree base kv.1 kv.2)

/-! ## `blender_bridge.py`: configuration tables -/

namespace Bridge

/-- `PERSONALITY_TO_FEATURES`: trait to feature part to modifier/intensity.
Nested Python dicts are rendered as nested association lists. -/
def PERSONALITY_TO_FEATURES :
    List (String × List (String × List (String × ℚ))) :=
  [("intelligent",
    [("forehead", [("high", 7/10)]),
     ("eyes", [("focused", 6/10), ("sharp", 7/10)]),
     ("nose", [("refined", 5/10)]),
     ("jaw", [("defined", 6/10)])]),
   ("wise",
    [("forehead", [("high", 8/10)]),
     ("eyes", [("deep", 7/10)]),
     ("cheeks", [("hollow", 4/10)]),
     ("face", [("aged", 5/10)])]),
   ("strong",
    [("jaw", [("strong", 8/10), ("wide", 6/10)]),
     ("chin", [("prominent", 7/10)]),
     ("cheeks", [("defined", 6/10)]),
     ("neck", [("thick", 5/10)])]),
   ("gentle",
    [("eyes", [("soft", 6/10), ("large", 5/10)]),
     ("lips", [("full", 5/10)]),
     ("face", [("round", 4/10)]),
     ("jaw", [("soft", 3/10)])]),
   ("fierce",
    [("eyes", [("narrow", 7/10), ("intense", 8/10)]),
     ("eyebrows", [("thick", 6/10), ("low", 5/10)]),
     ("jaw", [("angular", 7/10)]),
     ("nose", [("sharp", 6/10)])]),
   ("kind",
    [("eyes", [("warm", 6/10), ("crinkled", 4/10)]),
     ("mouth", [("upturned", 5/10)]),
     ("face", [("soft", 5/10)])])]

/-- `AGE_MAPPINGS` (computed by the analysis but never applied to the
change set by `process_and_apply_smart_prompt`). -/
def AGE_MAPPINGS : List (String × List (String × List (String × ℚ))) :=
  [("young",
    [("face", [("smooth", 8/10), ("full", 6/10)]),
     ("eyes", [("bright", 7/10)]),
     ("skin", [("tight", 8/10)])]),
   ("old",
    [("face", [("wrinkled", 7/10), ("hollow", 5/10)]),
     ("eyes", [("droopy", 6/10)]),
     ("skin", [("loose", 6/10)])]),
   ("middle-aged",
    [("face", [("mature", 5/10)]),
     ("eyes", [("experienced", 4/10)])])]

/-- `SYNONYM_MAP`. -/
def SYNONYM_MAP : List (String × String) :=
  [("smart", "intelligent"), ("clever", "intelligent"), ("bright", "intelligent"),
   ("sharp", "intelligent"),
   ("powerful", "strong"), ("muscular", "strong"), ("robust", "strong"),
   ("beautiful", "attractive"), ("handsome", "attractive"), ("pretty", "attractive"),
   ("elderly", "old"), ("senior", "old"), ("youthful", "young"), ("teenage", "young")]

/-- `CONTEXTUAL_FEATURES`.  In the source each entry also carries an
`"overall"` key whose value is a bare string; `map_traits_to_features`
skips that key by name before ever reading its value, so it is rendered
here with an empty modifier list. -/
def CONTEXTUAL_FEATURES : List (String × List (String × List (String × ℚ))) :=
  [("businessman",
    [("overall", []),
     ("jaw", [("clean", 6/10)]),
     ("hair", [("neat", 8/10)]),
     ("face", [("confident", 7/10)])]),
   ("athlete",
    [("overall", []),
     ("body", [("muscular", 8/10)]),
     ("jaw", [("strong", 7/10)]),
     ("neck", [("thick", 6/10)])]),
   ("artist",
    [("overall", []),
     ("eyes", [("expressive", 7/10)]),
     ("face", [("unique", 5/10)]),
     ("hair", [("unconventional", 6/10)])])]

/-- `GENDER_KEYWORDS`. -/
def GENDER_MALE : List String :=
  ["man", "male", "boy", "gentleman", "guy", "dude", "he", "him", "his"]

def GENDER_FEMALE : List String :=
  ["woman", "female", "girl", "lady", "gal", "she", "her", "hers"]

def DEFAULT_ETHNICITY : String := "Caucasian"
def DEFAULT_GENDER : String := "male"

/-- The bridge's richer `CONCEPT_MAP`. -/
def CONCEPT_MAP : List (String × String) :=
  [("caucasian", "Caucasian"), ("white", "Caucasian"), ("european", "Caucasian"),
   ("asian", "Asian"), ("oriental", "Asian"), ("east-asian", "Asian"),
   ("african", "African"), ("black", "African"), ("afro", "African"),
   ("elf", "Elf"), ("elven", "Elf"), ("elvish", "Elf"),
   ("dwarf", "Dwarf"), ("dwarven", "Dwarf")]

/-- The bridge's `FEATURE_MAP` (values normalised to template lists, as the
code does before iterating). -/
def FEATURE_MAP : List (String × List (String × List String)) :=
  [("chin",
    [("long", ["L2_{ethnicity}_Chin_SizeZ_max"]),
     ("short", ["L2_{ethnicity}_Chin_SizeZ_min"]),
     ("wide", ["L2_{ethnicity}_Chin_SizeX_max"]),
     ("narrow", ["L2_{ethnicity}_Chin_SizeX_min"]),
     ("prominent", ["L2_{ethnicity}_Chin_Prominence_max"]),
     ("defined", ["L2_{ethnicity}_Chin_Prominence_max"]),
     ("strong", ["L2_{ethnicity}_Chin_Prominence_max"]),
     ("cleft", ["L2_{ethnicity}_Chin_Cleft_max"])]),
   ("jaw",
    [("strong", ["L2_{ethnicity}_Jaw_Angle_min"]),
     ("defined", ["L2_{ethnicity}_Jaw_Angle_min"]),
     ("angular", ["L2_{ethnicity}_Jaw_Angle_min"]),
     ("wide", ["L2_{ethnicity}_Jaw_ScaleX_max"]),
     ("narrow", ["L2_{ethnicity}_Jaw_ScaleX_min"]),
     ("soft", ["L2_{ethnicity}_Jaw_Angle_max"])]),
   ("eyes",
    [("big", ["L2__Eyes_Size_max"]),
     ("large", ["L2__Eyes_Size_max"]),
     ("small", ["L2__Eyes_Size_min"]),
     ("narrow", ["L2__Eyes_Size_min"]),
     ("wide-set", ["L2_{ethnicity}_Eyes_PosX_max"]),
     ("close-set", ["L2_{ethnicity}_Eyes_PosX_min"]),
     ("focused", ["L2_{ethnicity}_Eyes_PosX_min"]),
     ("sharp", ["L2__Eyes_Size_min"]),
     ("intense", ["L2__Eyes_Size_min"])]),
   ("nose",
    [("long", ["L2_{ethnicity}_Nose_SizeY_max"]),
     ("short", ["L2_{ethnicity}_Nose_SizeY_min"]),
     ("wide", ["L2_{ethnicity}_Nose_BaseSizeX_max"]),
     ("thin", ["L2_{ethnicity}_Nose_BridgeSizeX_min"]),
     ("refined", ["L2_{ethnicity}_Nose_BridgeSizeX_min"]),
     ("sharp", ["L2_{ethnicity}_Nose_TipSize_min"]),
     ("pointy", ["L2_{ethnicity}_Nose_TipSize_min"])]),
   ("lips",
    [("full", ["L2_{ethnicity}_Mouth_UpperlipVolume_max",
               "L2_{ethnicity}_Mouth_LowerlipVolume_max"]),
     ("thin", ["L2_{ethnicity}_Mouth_UpperlipVolume_min",
               "L2_{ethnicity}_Mouth_LowerlipVolume_min"])]),
   ("forehead",
    [("high", ["L2_{ethnicity}_Forehead_SizeY_max"]),
     ("low", ["L2_{ethnicity}_Forehead_SizeY_min"]),
     ("wide", ["L2_{ethnicity}_Forehead_SizeX_max"])]),
   ("ears",
    [("big", ["L2_{ethnicity}_Ears_SizeX_max", "L2_{ethnicity}_Ears_SizeY_max"]),
     ("small", ["L2_{ethnicity}_Ears_SizeX_min", "L2_{ethnicity}_Ears_SizeY_min"]),
     ("pointed", ["L2__Fantasy_EarsPointed_max"])])]

/-- The bridge's `INTENSITY_MAP`. -/
def INTENSITY_MAP : List (String × ℚ) :=
  [("slightly", 3/10), ("somewhat", 5/10), ("moderately", 6/10),
   ("very", 8/10), ("extremely", 9/10), ("incredibly", 1)]

def DEFAULT_VALUE : ℚ := 7/10

/-- Stop words removed by `extract_keywords`. -/
def STOP_WORDS : List String :=
  ["a", "an", "the", "of", "with", "and", "or", "but", "in", "on", "at",
   "to", "for", "from"]

end Bridge

/-! ## `blender_bridge.py`: NLP pipeline -/

/-- Maximal word-character run at the head of the list, with the rest. -/
def takeRun : List Char → List Char × List Char
  | [] => ([], [])
  | c :: t =>
    if isWordChar c then
      let r := takeRun t
      (c :: r.1, r.2)
    else ([], c :: t)

/-- Fuelled scanner for the bridge's token regex: a word-character run,
optionally extended by one hyphen-joined word-character run. -/
def hyphenTokensAux : Nat → List Char → List (List Char)
  | 0, _ => []
  | _ + 1, [] => []
  | fuel + 1, c :: rest =>
    if isWordChar c then
      let r1 := takeRun (c :: rest)
      match r1.2 with
      | h1 :: h2 :: t =>
        if h1 == '-' && isWordChar h2 then
          let r2 := takeRun (h2 :: t)
          (r1.1 ++ '-' :: r2.1) :: hyphenTokensAux fuel r2.2
        else r1.1 :: hyphenTokensAux fuel r1.2
      | _ => r1.1 :: hyphenTokensAux fuel r1.2
    else hyphenTokensAux fuel rest

/-- The bridge's tokenisation: word runs with optional single hyphen
extension (the regex findall of `extract_keywords`). -/
def pyFindallHyphenWords (s : String) : List String :=
  (hyphenTokensAux s.data.length s.data).map fun l => ⟨l⟩

namespace Bridge

/-- `extract_keywords`: lower-case, tokenize, drop stop words. -/
def extractKeywords (prompt : String) : List String :=
  (pyFindallHyphenWords (strLower prompt)).filter fun w => !STOP_WORDS.contains w

/-- `apply_synonyms`: canonicalise each word through `SYNONYM_MAP`. -/
def applySynonyms (words : List String) : List String :=
  words.map fun w => (List.lookup w SYNONYM_MAP).getD w

/-- The keyword list produced by `smart_prompt_analysis` (its
`all_keywords` field). -/
def bridgeKeywords (prompt : String) : List String :=
  applySynonyms (extractKeywords prompt)

/-- Ethnicity detection of `smart_prompt_analysis`: the first keyword in
token order that is a `CONCEPT_MAP` key; default otherwise. -/
def detectEthnicity (keywords : List String) : String :=
  match keywords.find? fun w => (List.lookup w CONCEPT_MAP).isSome with
  | some w => (List.lookup w CONCEPT_MAP).getD DEFAULT_ETHNICITY
  | none => DEFAULT_ETHNICITY

/-- Gender detection: the first keyword in either gender list decides;
the female list is checked first for each word. -/
def detectGender (keywords : List String) : String :=
  match keywords.find? fun w => GENDER_FEMALE.contains w || GENDER_MALE.contains w with
  | some w => if GENDER_FEMALE.contains w then "female" else "male"
  | none => DEFAULT_GENDER

/-- `detect_personality_traits`: every keyword that is a personality or
contextual table key becomes a trait at intensity 1.0. -/
def detectPersonalityTraits (words : List String) : Changes :=
  words.foldl
    (fun d w =>
      if (List.lookup w PERSONALITY_TO_FEATURES).isSome then dinsert w 1 d
      else if (List.lookup w CONTEXTUAL_FEATURES).isSome then dinsert w 1 d
      else d) []

/-- The feature tables of a trait: the personality table entry when one
exists, falling back to the contextual table. -/
def traitFeatureTables (trait : String) :
    Option (List (String × List (String × ℚ))) :=
  match List.lookup trait PERSONALITY_TO_FEATURES with
  | some tf => some tf
  | none => List.lookup trait CONTEXTUAL_FEATURES

/-- Innermost loop of `map_traits_to_features`: emit each template at one
value. -/
def mapTraitsTemplates (ethnicity : String) (v : ℚ) (templates : List String)
    (d : Changes) : Changes :=
  templates.foldl (fun d t => dinsert (formatEth t ethnicity) v d) d

/-- Modifier loop of `map_traits_to_features` for one feature part. -/
def mapTraitsMods (ethnicity : String) (tpv : ℚ)
    (mm : List (String × List String)) (mods : List (String × ℚ))
    (d : Changes) : Changes :=
  mods.foldl
    (fun changes mv =>
      match List.lookup mv.1 mm with
      | none => changes
      | some templates =>
        mapTraitsTemplates ethnicity (mv.2 * tpv) templates changes) d

/-- Feature-part loop of `map_traits_to_features`: the `"overall"` key is
skipped, unknown feature parts are skipped. -/
def mapTraitsFeature (ethnicity : String) (tpv : ℚ)
    (fp : String × List (String × ℚ)) (d : Changes) : Changes :=
  bif fp.1 == "overall" then d
  else
    match List.lookup fp.1 FEATURE_MAP with
    | none => d
    | some mm => mapTraitsMods ethnicity tpv mm fp.2 d

/-- `map_traits_to_features`: traits to shape-key changes, each value the
modifier intensity scaled by the trait intensity. -/
def mapTraitsToFeatures (traits : Changes) (ethnicity : String) : Changes :=
  traits.foldl
    (fun changes tp =>
      match traitFeatureTables tp.1 with
      | none => changes
      | some tf =>
        tf.foldl (fun changes fp => mapTraitsFeature ethnicity tp.2 fp changes)
          changes)
    []

/-- Step 4 of `process_and_apply_smart_prompt` at one keyword index:
feature noun at `i`, modifier at `i - 1`, optional intensity at `i - 2`. -/
def bridgeFeatureStep (ethnicity : String) (words : List String)
    (d : Changes) (i : Nat) : Changes :=
  match List.lookup (words.getD i "") FEATURE_MAP with
  | none => d
  | some mm =>
    if 0 < i then
      match List.lookup (words.getD (i - 1) "") mm with
      | none => d
      | some templates =>
        let value : ℚ :=
          if 1 < i then
            (List.lookup (words.getD (i - 2) "") INTENSITY_MAP).getD DEFAULT_VALUE
          else DEFAULT_VALUE
        templates.foldl (fun d t => dinsert (formatEth t ethnicity) value d) d
    else d

def bridgeFeaturePass (ethnicity : String) (words : List String)
    (d : Changes) : Changes :=
  (List.range words.length).foldl (bridgeFeatureStep ethnicity words) d

/-- The change set accumulated by `process_and_apply_smart_prompt` for a
keyword list: the `L1_` activation only when the ethnicity differs from the
default, then the personality changes (`dict.update`), then the
feature-modifier pass. -/
def smartChanges (keywords : List String) : Changes :=
  let eth := detectEthnicity keywords
  let ch : Changes :=
    if eth ≠ DEFAULT_ETHNICITY then dinsert ("L1_" ++ eth) 1 [] else []
  let pc := mapTraitsToFeatures (detectPersonalityTraits keywords) eth
  let ch := pc.foldl (fun d kv => dinsert kv.1 kv.2 d) ch
  bridgeFeaturePass eth keywords ch

/-- The change set for a raw prompt string. -/
def processSmartPromptChanges (prompt : String) : Changes :=
  smartChanges (bridgeKeywords prompt)

/-! ### The request bridge tick (`check_for_requests`)

The filesystem exchange is modelled by the presence of the two documents:
`request` is `none` when no request file exists, `some none` when the file
exists but reading it raises (malformed JSON or a missing `prompt` field,
the exception path of the handler), and `some (some p)` when it parses with
prompt `p`.  `response` records the `status` field of the last response
document written.  `sceneHas` says which character objects `get_object`
can find.  The returned `Option ℚ` is the timer's return value: `none`
stops the loop, `some (1/2)` polls again in 0.5 seconds. -/

structure BridgeFiles where
  request : Option (Option String)
  response : Option String
  deriving DecidableEq

/-- One watcher tick. -/
def checkForRequests (monitoring : Bool) (sceneHas : String → Bool)
    (fs : BridgeFiles) : BridgeFiles × Option ℚ :=
  if !monitoring then (fs, none)
  else
    match fs.request with
    | none => (fs, some (1/2))
    | some none => ({ request := none, response := some "error" }, some (1/2))
    | some (some prompt) =>
      let gender := detectGender (bridgeKeywords prompt)
      let charName := if gender == "female" then "mb_female" else "mb_male"
      if sceneHas charName then
        ({ request := none, response := some "completed" }, some (1/2))
      else
        ({ request := none, response := some "error" }, some (1/2))

end Bridge

/-! ## `basic_first_script.py` -/

namespace BasicScript

/-- `ethnicity_map` of the first-variant script. -/
def ethnicity_map : List (String × String) :=
  [("caucasian", "L1_Caucasian"), ("asian", "L1_Asian"), ("african", "L1_African")]

/-- `feature_map` of the first-variant script (fixed Caucasian keys; values
normalised to lists as the code does with its `isinstance` check). -/
def feature_map : List (String × List (String × List String)) :=
  [("chin",
    [("long", ["L2_Caucasian_Chin_SizeZ_max"]),
     ("short", ["L2_Caucasian_Chin_SizeZ_min"]),
     ("wide", ["L2_Caucasian_Chin_SizeX_max"]),
     ("narrow", ["L2_Caucasian_Chin_SizeX_min"]),
     ("prominent", ["L2_Caucasian_Chin_Prominence_max"])]),
   ("lips",
    [("full", ["L2_Caucasian_Mouth_UpperlipVolume_max",
               "L2_Caucasian_Mouth_LowerlipVolume_max"]),
     ("thin", ["L2_Caucasian_Mouth_UpperlipVolume_min",
               "L2_Caucasian_Mouth_LowerlipVolume_min"])]),
   ("eyes",
    [("big", ["L2__Eyes_Size_max"]),
     ("large", ["L2__Eyes_Size_max"]),
     ("small", ["L2__Eyes_Size_min"]),
     ("wide", ["L2_Caucasian_Eyes_PosX_max"]),
     ("narrow", ["L2_Caucasian_Eyes_PosX_min"])]),
   ("nose",
    [("long", ["L2_Caucasian_Nose_SizeY_max"]),
     ("short", ["L2_Caucasian_Nose_SizeY_min"]),
     ("wide", ["L2_Caucasian_Nose_BaseSizeX_max"]),
     ("thin", ["L2_Caucasian_Nose_BridgeSizeX_min"])])]

def intensity_map : List (String × ℚ) :=
  [("slightly", 3/10), ("somewhat", 5/10), ("very", 9/10), ("extremely", 1)]

def DEFAULT_VALUE : ℚ := 7/10

/-- Part A: ethnicity by substring containment over the whole lowercased
prompt, with no early exit — every matching entry is inserted. -/
def ethnicityPass (promptLower : String) (d : Changes) : Changes :=
  ethnicity_map.foldl
    (fun d p => if pyIn p.1 promptLower then dinsert p.2 1 d else d) d

/-- Part B at one word index: feature noun at `i`, modifier at `i - 1`,
optional intensity at `i - 2`. -/
def basicFeatureStep (words : List String) (d : Changes) (i : Nat) : Changes :=
  match List.lookup (words.getD i "") feature_map with
  | none => d
  | some mm =>
    if 0 < i then
      match List.lookup (words.getD (i - 1) "") mm with
      | none => d
      | some keys =>
        let value : ℚ :=
          if 1 < i then
            (List.lookup (words.getD (i - 2) "") intensity_map).getD DEFAULT_VALUE
          else DEFAULT_VALUE
        keys.foldl (fun d k => dinsert k value d) d
    else d

def basicFeaturePass (words : List String) (d : Changes) : Changes :=
  (List.range words.length).foldl (basicFeatureStep words) d

/-- The accumulated change set of the first-variant
`process_and_apply_prompt`: whitespace tokenisation, substring ethnicity
pass, then the feature-modifier pass. -/
def basicAnalyze (prompt : String) : Changes :=
  let pl := strLower prompt
  basicFeaturePass (pySplit pl) (ethnicityPass pl [])

end BasicScript

/-! ## Generic lemmas about folds of dictionary insertions -/

theorem lookup_foldl_dinsert_ne {β : Type} (key : β → String) (val : β → ℚ)
    {k : String} :
    ∀ (l : List β) (d : Changes), (∀ b ∈ l, key b ≠ k) →
      List.lookup k (l.foldl (fun d b => dinsert (key b) (val b) d) d) =
        List.lookup k d := by
  intro l
  induction l with
  | nil => intro d _; rfl
  | cons b t ih =>
    intro d h
    rw [List.foldl_cons]
    have hb : key b ≠ k := h b (List.mem_cons_self _ _)
    calc List.lookup k (t.foldl (fun d b => dinsert (key b) (val b) d)
            (dinsert (key b) (val b) d))
        = List.lookup k (dinsert (key b) (val b) d) :=
          ih _ fun b' hb' => h b' (List.mem_cons_of_mem _ hb')
      _ = List.lookup k d := lookup_dinsert_ne (Ne.symm hb).symm.symm _ _

theorem lookup_foldl_dinsert_eq {β : Type} (key : β → String) (val : β → ℚ)
    {k : String} {v0 : ℚ} :
    ∀ (l : List β) (d : Changes), (∃ b ∈ l, key b = k ∧ val b = v0) →
      (∀ b ∈ l, key b = k → val b = v0) →
      List.lookup k (l.foldl (fun d b => dinsert (key b) (val b) d) d) =
        some v0 := by
  intro l
  induction l with
  | nil => rintro d ⟨b, hb, _⟩ _; exact absurd hb (List.not_mem_nil b)
  | cons b t ih =>
    intro d hex hall
    rw [List.foldl_cons]
    by_cases ht : ∃ b' ∈ t, key b' = k
    · rcases ht with ⟨b', hb', hk'⟩
      exact ih _ ⟨b', hb', hk', hall b' (List.mem_cons_of_mem _ hb') hk'⟩
        fun b'' hb'' hk'' => hall b'' (List.mem_cons_of_mem _ hb'') hk''
    · have hb : key b = k := by
        rcases hex with ⟨b', hb', hk', _⟩
        rcases List.mem_cons.mp hb' with rfl | hmem
        · exact hk'
        · exact absurd ⟨b', hmem, hk'⟩ ht
      have hv : val b = v0 := hall b (List.mem_cons_self _ _) hb
      calc List.lookup k (t.foldl (fun d b => dinsert (key b) (val b) d)
              (dinsert (key b) (val b) d))
          = List.lookup k (dinsert (key b) (val b) d) :=
            lookup_foldl_dinsert_ne key val t _
              fun b' hb' hk' => ht ⟨b', hb', hk'⟩
        _ = some v0 := by rw [hb, hv]; exact lookup_dinsert_self k v0 d

/-- All values of a change set lie in the unit interval. -/
def vals01 (d : Changes) : Prop := ∀ p ∈ d, 0 ≤ p.2 ∧ p.2 ≤ 1

theorem vals01_nil : vals01 [] := fun p hp => absurd hp (List.not_mem_nil p)

theorem vals01_dinsert {d : Changes} (hd : vals01 d) {v : ℚ}
    (hv : 0 ≤ v ∧ v ≤ 1) (k : String) : vals01 (dinsert k v d) := by
  intro p hp
  rcases mem_dinsert hp with rfl | hm
  · exact hv
  · exact hd p hm

theorem vals01_foldl_dinsert {β : Type} (key : β → String) (val : β → ℚ) :
    ∀ (l : List β) (d : Changes), vals01 d → (∀ b ∈ l, 0 ≤ val b ∧ val b ≤ 1) →
      vals01 (l.foldl (fun d b => dinsert (key b) (val b) d) d) := by
  intro l
  induction l with
  | nil => intro d hd _; exact hd
  | cons b t ih =>
    intro d hd h
    rw [List.foldl_cons]
    exact ih _ (vals01_dinsert hd (h b (List.mem_cons_self _ _)) _)
      fun b' hb' => h b' (List.mem_cons_of_mem _ hb')

/-- A fold over a keyword table applies exactly the body of the unique
active entry when the table's keys are distinct and only one key is
active. -/
theorem table_fold_single {α : Type} (g : String → α → Changes → Changes)
    (active : String → Bool) {kw : String} {morphs : α} :
    ∀ (table : List (String × α)) (d : Changes),
      (kw, morphs) ∈ table → (table.map Prod.fst).Nodup →
      (∀ e ∈ table, active e.1 = true → e.1 = kw) → active kw = true →
      table.foldl (fun d e => bif active e.1 then g e.1 e.2 d else d) d =
        g kw morphs d := by
  intro table
  induction table with
  | nil => intro d hmem _ _ _; exact absurd hmem (List.not_mem_nil _)
  | cons e t ih =>
    intro d hmem hnd hu hact
    rw [List.foldl_cons]
    rcases List.mem_cons.mp hmem with rfl | hmem'
    · rw [show active (kw, morphs).1 = true from hact, cond_true]
      have hrest : ∀ e' ∈ t, active e'.1 = false := by
        intro e' he'
        cases ha : active e'.1
        · rfl
        · have : e'.1 = kw := hu e' (List.mem_cons_of_mem _ he') ha
          have : kw ∈ t.map Prod.fst := this ▸ List.mem_map_of_mem _ he'
          exact absurd this (by simpa using (List.nodup_cons.mp hnd).1)
      clear ih hmem hnd hu
      induction t generalizing d with
      | nil => rfl
      | cons e' t' ih' =>
        rw [List.foldl_cons, hrest e' (List.mem_cons_self _ _), cond_false]
        exact ih' _ fun e'' he'' => hrest e'' (List.mem_cons_of_mem _ he'')
    · have he : active e.1 = false := by
        cases ha : active e.1
        · rfl
        · have h1 : e.1 = kw := hu e (List.mem_cons_self _ _) ha
          have : kw ∈ t.map Prod.fst := by
            have := List.mem_map_of_mem Prod.fst hmem'
            simpa using this
          exact absurd this (h1 ▸ by simpa using (List.nodup_cons.mp hnd).1)
      rw [he, cond_false]
      exact ih d hmem' (List.nodup_cons.mp hnd).2
        (fun e' he' => hu e' (List.mem_cons_of_mem _ he')) hact


/-- A successful association-list lookup exhibits a member of the list. -/
theorem lookup_mem {α β : Type} [BEq α] [LawfulBEq α] {k : α} {v : β} :
    ∀ {l : List (α × β)}, List.lookup k l = some v → (k, v) ∈ l := by
  intro l
  induction l with
  | nil => intro h; cases h
  | cons p t ih =>
    rcases p with ⟨a, b⟩
    intro h
    cases hb : k == a
    · simp only [List.lookup, hb] at h
      exact List.mem_cons_of_mem _ (ih h)
    · simp only [List.lookup, hb] at h
      cases h
      have hk : k = a := beq_iff_eq.mp hb
      subst hk
      exact List.mem_cons_self _ _

namespace SecondScript

/-- Every ethnicity the mapper can substitute: the default or a concept
value. -/
def ETHNICITIES : List String := DEFAULT_ETHNICITY :: CONCEPT_MAP.map Prod.snd

theorem detectedEthnicity_mem (words : List String) :
    detectedEthnicity words ∈ ETHNICITIES := by
  unfold detectedEthnicity
  cases h : conceptFind words with
  | none => exact List.mem_cons_self _ _
  | some p =>
    have hmem : p ∈ CONCEPT_MAP := List.mem_of_find?_eq_some h
    exact List.mem_cons_of_mem _ (List.mem_map_of_mem Prod.snd hmem)

/-- Every template the feature pass can emit. -/
def allFeatureTemplates : List String :=
  FEATURE_MAP.flatMap fun p => p.2.flatMap Prod.snd

theorem mem_allFeatureTemplates {f m t : String}
    {mm : List (String × List String)} {ts : List String}
    (h1 : List.lookup f FEATURE_MAP = some mm)
    (h2 : List.lookup m mm = some ts) (ht : t ∈ ts) :
    t ∈ allFeatureTemplates :=
  List.mem_flatMap.mpr ⟨(f, mm), lookup_mem h1,
    List.mem_flatMap.mpr ⟨(m, ts), lookup_mem h2, ht⟩⟩

theorem intensity_bounds : ∀ p ∈ INTENSITY_MAP, 0 ≤ p.2 ∧ p.2 ≤ 1 := by
  intro p hp
  simp only [INTENSITY_MAP, List.mem_cons, List.not_mem_nil, or_false] at hp
  rcases hp with rfl | rfl | rfl | rfl <;> norm_num

theorem featureBaseValue_bounds (words : List String) (i : Nat) :
    0 ≤ featureBaseValue words i ∧ featureBaseValue words i ≤ 1 := by
  unfold featureBaseValue
  cases hi : featureIntensity words i with
  | none => norm_num [DEFAULT_VALUE]
  | some v =>
    unfold featureIntensity at hi
    by_cases hlt : 1 < i
    · rw [if_pos hlt] at hi
      exact intensity_bounds _ (lookup_mem hi)
    · rw [if_neg hlt] at hi; cases hi

theorem featureResolved_bounds (modMap : List (String × List String))
    (words : List String) (i : Nat) :
    0 ≤ (featureResolved modMap words i).2 ∧
      (featureResolved modMap words i).2 ≤ 1 := by
  unfold featureResolved
  cases featureNegated words i
  · rw [cond_false]
    exact featureBaseValue_bounds words i
  · rw [cond_true]
    cases List.lookup (featureModifier modMap words i) ANTONYM_MAP with
    | none => exact ⟨le_refl 0, by norm_num⟩
    | some o =>
      cases o with
      | none => exact ⟨le_refl 0, by norm_num⟩
      | some a => exact featureBaseValue_bounds words i

/-- The feature step either leaves the change set alone, aborts, or folds a
looked-up template list in at a single value within the unit interval. -/
theorem featureStep_cases (eth : String) (words : List String) (d : Changes)
    (i : Nat) :
    featureStep eth words d i = some d ∨ featureStep eth words d i = none ∨
    ∃ mm ts v, List.lookup (words.getD i "") FEATURE_MAP = some mm ∧
      (∃ m, List.lookup m mm = some ts) ∧ (0 ≤ v ∧ v ≤ 1) ∧
      featureStep eth words d i =
        some (ts.foldl (fun d t => dinsert (formatEth t eth) v d) d) := by
  unfold featureStep
  cases h1 : List.lookup (words.getD i "") FEATURE_MAP with
  | none => left; rfl
  | some mm =>
    dsimp only
    by_cases h2 : 0 < i
    · rw [if_pos h2]
      by_cases h3 : (List.lookup (featureModifier mm words i) mm).isSome = true
      · rw [if_pos h3]
        cases h4 : List.lookup (featureResolved mm words i).1 mm with
        | none => right; left; rfl
        | some templates =>
          right; right
          exact ⟨mm, templates, (featureResolved mm words i).2, rfl,
            ⟨(featureResolved mm words i).1, h4⟩,
            featureResolved_bounds mm words i, rfl⟩
      · rw [if_neg h3]; left; rfl
    · rw [if_neg h2]; left; rfl

theorem featureStep_lookup_ne {eth : String} {words : List String}
    {d d2 : Changes} {i : Nat} {k : String}
    (hstep : featureStep eth words d i = some d2)
    (hk : ∀ t ∈ allFeatureTemplates, formatEth t eth ≠ k) :
    List.lookup k d2 = List.lookup k d := by
  rcases featureStep_cases eth words d i with h | h | ⟨mm, ts, v, h1, ⟨m, h2⟩, _, h⟩
  · rw [hstep] at h; cases h; rfl
  · rw [hstep] at h; cases h
  · rw [hstep] at h
    cases h
    exact lookup_foldl_dinsert_ne (fun t => formatEth t eth) (fun _ => v) ts d
      fun t ht => hk t (mem_allFeatureTemplates h1 h2 ht)

theorem featureStep_vals01 {eth : String} {words : List String}
    {d d2 : Changes} {i : Nat} (hd : vals01 d)
    (hstep : featureStep eth words d i = some d2) : vals01 d2 := by
  rcases featureStep_cases eth words d i with h | h | ⟨mm, ts, v, _, _, hv, h⟩
  · rw [hstep] at h; cases h; exact hd
  · rw [hstep] at h; cases h
  · rw [hstep] at h
    cases h
    exact vals01_foldl_dinsert (fun t => formatEth t eth) (fun _ => v) ts d hd
      fun _ _ => hv

theorem featurePassIdx_lookup_ne {eth : String} {words : List String}
    {k : String} (hk : ∀ t ∈ allFeatureTemplates, formatEth t eth ≠ k) :
    ∀ (idxs : List Nat) (d d2 : Changes),
      featurePassIdx eth words idxs d = some d2 →
      List.lookup k d2 = List.lookup k d := by
  intro idxs
  induction idxs with
  | nil => intro d d2 h; cases h; rfl
  | cons i rest ih =>
    intro d d2 h
    unfold featurePassIdx at h
    cases hs : featureStep eth words d i with
    | none => rw [hs] at h; cases h
    | some dm =>
      rw [hs] at h
      calc List.lookup k d2 = List.lookup k dm := ih _ _ h
        _ = List.lookup k d := featureStep_lookup_ne hs hk

theorem featurePassIdx_vals01 {eth : String} {words : List String} :
    ∀ (idxs : List Nat) (d d2 : Changes), vals01 d →
      featurePassIdx eth words idxs d = some d2 → vals01 d2 := by
  intro idxs
  induction idxs with
  | nil => intro d d2 hd h; cases h; exact hd
  | cons i rest ih =>
    intro d d2 hd h
    unfold featurePassIdx at h
    cases hs : featureStep eth words d i with
    | none => rw [hs] at h; cases h
    | some dm =>
      rw [hs] at h
      exact ih _ _ (featureStep_vals01 hd hs) h

theorem featurePass_lookup_ne {eth : String} {words : List String}
    {d d2 : Changes} {k : String}
    (h : featurePass eth words d = some d2)
    (hk : ∀ t ∈ allFeatureTemplates, formatEth t eth ≠ k) :
    List.lookup k d2 = List.lookup k d :=
  featurePassIdx_lookup_ne hk _ _ _ h

theorem featurePass_vals01 {eth : String} {words : List String}
    {d d2 : Changes} (hd : vals01 d) (h : featurePass eth words d = some d2) :
    vals01 d2 :=
  featurePassIdx_vals01 _ _ _ hd h

end SecondScript

namespace SecondScript

theorem compound_values_bounds :
    ∀ e ∈ COMPOUND_MAP, ∀ tv ∈ e.2, 0 ≤ tv.2 ∧ tv.2 ≤ 1 := by
  intro e he
  simp only [COMPOUND_MAP, List.mem_cons, List.not_mem_nil, or_false] at he
  rcases he with rfl | rfl | rfl | rfl | rfl | rfl <;>
    · intro tv htv
      simp only [List.mem_cons, List.not_mem_nil, or_false] at htv
      rcases htv with rfl
      norm_num

theorem compoundPartStep_lookup {morphs : List (String × ℚ)} {next k : String}
    {part : String} {st : Changes × Bool}
    (hk : ∀ tv ∈ morphs, formatPart tv.1 part ≠ k) :
    List.lookup k (compoundPartStep morphs next st part).1 =
      List.lookup k st.1 := by
  unfold compoundPartStep
  cases h : pyIn next (strLower part)
  · rw [cond_false]
  · rw [cond_true]
    exact lookup_foldl_dinsert_ne (fun tv => formatPart tv.1 part) Prod.snd
      morphs st.1 hk

theorem compoundPartStep_vals01 {morphs : List (String × ℚ)} {next : String}
    {part : String} {st : Changes × Bool} (hst : vals01 st.1)
    (hb : ∀ tv ∈ morphs, 0 ≤ tv.2 ∧ tv.2 ≤ 1) :
    vals01 (compoundPartStep morphs next st part).1 := by
  unfold compoundPartStep
  cases h : pyIn next (strLower part)
  · rw [cond_false]; exact hst
  · rw [cond_true]
    exact vals01_foldl_dinsert (fun tv => formatPart tv.1 part) Prod.snd
      morphs st.1 hst hb

theorem compoundPartsFold_lookup {morphs : List (String × ℚ)} {next k : String}
    (hk : ∀ tv ∈ morphs, ∀ part ∈ COMPOUND_PARTS, formatPart tv.1 part ≠ k) :
    ∀ (ps : List String), (∀ p ∈ ps, p ∈ COMPOUND_PARTS) →
      ∀ (st : Changes × Bool),
      List.lookup k (ps.foldl (compoundPartStep morphs next) st).1 =
        List.lookup k st.1 := by
  intro ps
  induction ps with
  | nil => intro _ st; rfl
  | cons p t ih =>
    intro hmem st
    rw [List.foldl_cons]
    calc List.lookup k (t.foldl (compoundPartStep morphs next)
            (compoundPartStep morphs next st p)).1
        = List.lookup k (compoundPartStep morphs next st p).1 :=
          ih (fun q hq => hmem q (List.mem_cons_of_mem _ hq)) _
      _ = List.lookup k st.1 :=
          compoundPartStep_lookup fun tv htv =>
            hk tv htv p (hmem p (List.mem_cons_self _ _))

theorem compoundPartsFold_vals01 {morphs : List (String × ℚ)} {next : String}
    (hb : ∀ tv ∈ morphs, 0 ≤ tv.2 ∧ tv.2 ≤ 1) :
    ∀ (ps : List String) (st : Changes × Bool), vals01 st.1 →
      vals01 (ps.foldl (compoundPartStep morphs next) st).1 := by
  intro ps
  induction ps with
  | nil => intro st hst; exact hst
  | cons p t ih =>
    intro st hst
    rw [List.foldl_cons]
    exact ih _ (compoundPartStep_vals01 hst hb)

theorem compoundIdxStep_lookup {keyword : String} {morphs : List (String × ℚ)}
    {words : List String} {k : String} {st : Changes × Bool} {i : Nat}
    (hk : ∀ tv ∈ morphs, ∀ part ∈ COMPOUND_PARTS, formatPart tv.1 part ≠ k) :
    List.lookup k (compoundIdxStep keyword morphs words st i).1 =
      List.lookup k st.1 := by
  unfold compoundIdxStep
  cases h : words.getD i "" == keyword && decide (i < words.length - 1)
  · rw [cond_false]
  · rw [cond_true]
    exact compoundPartsFold_lookup hk COMPOUND_PARTS (fun p hp => hp) st

theorem compoundIdxStep_vals01 {keyword : String} {morphs : List (String × ℚ)}
    {words : List String} {st : Changes × Bool} {i : Nat} (hst : vals01 st.1)
    (hb : ∀ tv ∈ morphs, 0 ≤ tv.2 ∧ tv.2 ≤ 1) :
    vals01 (compoundIdxStep keyword morphs words st i).1 := by
  unfold compoundIdxStep
  cases h : words.getD i "" == keyword && decide (i < words.length - 1)
  · rw [cond_false]; exact hst
  · rw [cond_true]
    exact compoundPartsFold_vals01 hb COMPOUND_PARTS st hst

theorem compoundIdxFold_lookup {keyword : String} {morphs : List (String × ℚ)}
    {words : List String} {k : String}
    (hk : ∀ tv ∈ morphs, ∀ part ∈ COMPOUND_PARTS, formatPart tv.1 part ≠ k) :
    ∀ (idxs : List Nat) (st : Changes × Bool),
      List.lookup k (idxs.foldl (compoundIdxStep keyword morphs words) st).1 =
        List.lookup k st.1 := by
  intro idxs
  induction idxs with
  | nil => intro st; rfl
  | cons i t ih =>
    intro st
    rw [List.foldl_cons]
    calc List.lookup k (t.foldl (compoundIdxStep keyword morphs words)
            (compoundIdxStep keyword morphs words st i)).1
        = List.lookup k (compoundIdxStep keyword morphs words st i).1 := ih _
      _ = List.lookup k st.1 := compoundIdxStep_lookup hk

theorem compoundIdxFold_vals01 {keyword : String} {morphs : List (String × ℚ)}
    {words : List String} (hb : ∀ tv ∈ morphs, 0 ≤ tv.2 ∧ tv.2 ≤ 1) :
    ∀ (idxs : List Nat) (st : Changes × Bool), vals01 st.1 →
      vals01 (idxs.foldl (compoundIdxStep keyword morphs words) st).1 := by
  intro idxs
  induction idxs with
  | nil => intro st hst; exact hst
  | cons i t ih =>
    intro st hst
    rw [List.foldl_cons]
    exact ih _ (compoundIdxStep_vals01 hst hb)

theorem compoundAllParts_lookup {morphs : List (String × ℚ)} {k : String}
    (hk : ∀ tv ∈ morphs, ∀ part ∈ COMPOUND_PARTS, formatPart tv.1 part ≠ k) :
    ∀ (d : Changes),
      List.lookup k (compoundAllParts morphs d) = List.lookup k d := by
  unfold compoundAllParts
  suffices h : ∀ (ps : List String), (∀ p ∈ ps, p ∈ COMPOUND_PARTS) →
      ∀ (d : Changes),
      List.lookup k (ps.foldl
        (fun d part => morphs.foldl (fun d tv => dinsert (formatPart tv.1 part) tv.2 d) d)
        d) = List.lookup k d by
    intro d
    exact h COMPOUND_PARTS (fun p hp => hp) d
  intro ps
  induction ps with
  | nil => intro _ d; rfl
  | cons p t ih =>
    intro hmem d
    rw [List.foldl_cons]
    calc List.lookup k (t.foldl _
            (morphs.foldl (fun d tv => dinsert (formatPart tv.1 p) tv.2 d) d))
        = List.lookup k (morphs.foldl (fun d tv => dinsert (formatPart tv.1 p) tv.2 d) d) :=
          ih (fun q hq => hmem q (List.mem_cons_of_mem _ hq)) _
      _ = List.lookup k d :=
          lookup_foldl_dinsert_ne (fun tv => formatPart tv.1 p) Prod.snd morphs d
            fun tv htv => hk tv htv p (hmem p (List.mem_cons_self _ _))

theorem compoundAllParts_vals01 {morphs : List (String × ℚ)}
    (hb : ∀ tv ∈ morphs, 0 ≤ tv.2 ∧ tv.2 ≤ 1) :
    ∀ (d : Changes), vals01 d → vals01 (compoundAllParts morphs d) := by
  unfold compoundAllParts
  suffices h : ∀ (ps : List String) (d : Changes), vals01 d →
      vals01 (ps.foldl
        (fun d part => morphs.foldl (fun d tv => dinsert (formatPart tv.1 part) tv.2 d) d)
        d) by
    intro d hd
    exact h COMPOUND_PARTS d hd
  intro ps
  induction ps with
  | nil => intro d hd; exact hd
  | cons p t ih =>
    intro d hd
    rw [List.foldl_cons]
    exact ih _ (vals01_foldl_dinsert (fun tv => formatPart tv.1 p) Prod.snd
      morphs d hd hb)

theorem compoundEntry_lookup {keyword : String} {morphs : List (String × ℚ)}
    {words : List String} {k : String}
    (hk : ∀ tv ∈ morphs, ∀ part ∈ COMPOUND_PARTS, formatPart tv.1 part ≠ k) :
    ∀ (d : Changes),
      List.lookup k (compoundEntry keyword morphs words d) = List.lookup k d := by
  intro d
  unfold compoundEntry
  dsimp only
  cases h : ((List.range words.length).foldl
      (compoundIdxStep keyword morphs words) (d, false)).2
  · rw [cond_false]
    calc List.lookup k (compoundAllParts morphs _)
        = List.lookup k ((List.range words.length).foldl
            (compoundIdxStep keyword morphs words) (d, false)).1 :=
          compoundAllParts_lookup hk _
      _ = List.lookup k (d, false).1 := compoundIdxFold_lookup hk _ _
  · rw [cond_true]
    exact compoundIdxFold_lookup hk _ _

theorem compoundEntry_vals01 {keyword : String} {morphs : List (String × ℚ)}
    {words : List String} (hb : ∀ tv ∈ morphs, 0 ≤ tv.2 ∧ tv.2 ≤ 1) :
    ∀ (d : Changes), vals01 d →
      vals01 (compoundEntry keyword morphs words d) := by
  intro d hd
  unfold compoundEntry
  dsimp only
  cases h : ((List.range words.length).foldl
      (compoundIdxStep keyword morphs words) (d, false)).2
  · rw [cond_false]
    exact compoundAllParts_vals01 hb _ (compoundIdxFold_vals01 hb _ _ hd)
  · rw [cond_true]
    exact compoundIdxFold_vals01 hb _ _ hd

theorem compoundPass_lookup {words : List String} {k : String}
    (hk : ∀ e ∈ COMPOUND_MAP, ∀ tv ∈ e.2, ∀ part ∈ COMPOUND_PARTS,
      formatPart tv.1 part ≠ k) :
    ∀ (d : Changes),
      List.lookup k (compoundPass words d) = List.lookup k d := by
  unfold compoundPass
  suffices h : ∀ (tbl : List (String × List (String × ℚ))),
      (∀ e ∈ tbl, e ∈ COMPOUND_MAP) → ∀ (d : Changes),
      List.lookup k (tbl.foldl
        (fun d p => bif words.contains p.1 then compoundEntry p.1 p.2 words d else d)
        d) = List.lookup k d by
    intro d
    exact h COMPOUND_MAP (fun e he => he) d
  intro tbl
  induction tbl with
  | nil => intro _ d; rfl
  | cons e t ih =>
    intro hmem d
    rw [List.foldl_cons]
    have hstep : List.lookup k
        (bif words.contains e.1 then compoundEntry e.1 e.2 words d else d) =
        List.lookup k d := by
      cases h : words.contains e.1
      · rw [cond_false]
      · rw [cond_true]
        exact compoundEntry_lookup
          (fun tv htv => hk e (hmem e (List.mem_cons_self _ _)) tv htv) d
    calc List.lookup k (t.foldl _
            (bif words.contains e.1 then compoundEntry e.1 e.2 words d else d))
        = List.lookup k
            (bif words.contains e.1 then compoundEntry e.1 e.2 words d else d) :=
          ih (fun q hq => hmem q (List.mem_cons_of_mem _ hq)) _
      _ = List.lookup k d := hstep

theorem compoundPass_vals01 {words : List String} :
    ∀ (d : Changes), vals01 d → vals01 (compoundPass words d) := by
  unfold compoundPass
  suffices h : ∀ (tbl : List (String × List (String × ℚ))),
      (∀ e ∈ tbl, e ∈ COMPOUND_MAP) → ∀ (d : Changes), vals01 d →
      vals01 (tbl.foldl
        (fun d p => bif words.contains p.1 then compoundEntry p.1 p.2 words d else d)
        d) by
    intro d hd
    exact h COMPOUND_MAP (fun e he => he) d hd
  intro tbl
  induction tbl with
  | nil => intro _ d hd; exact hd
  | cons e t ih =>
    intro hmem d hd
    rw [List.foldl_cons]
    refine ih (fun q hq => hmem q (List.mem_cons_of_mem _ hq)) _ ?_
    cases h : words.contains e.1
    · rw [cond_false]; exact hd
    · rw [cond_true]
      exact compoundEntry_vals01
        (compound_values_bounds e (hmem e (List.mem_cons_self _ _))) d hd

theorem conceptChanges_vals01 (words : List String) :
    vals01 (conceptChanges words) := by
  unfold conceptChanges
  cases conceptFind words with
  | none => exact vals01_nil
  | some p => exact vals01_dinsert vals01_nil (by norm_num) _

end SecondScript

namespace SecondScript

/-! ### Characterisation of the compound-keyword scan -/

/-- The scan condition at index `i`: the keyword sits at `i` and `i` is not
the last position. -/
def kwAtB (words : List String) (kw : String) (i : Nat) : Bool :=
  words.getD i "" == kw && decide (i < words.length - 1)

/-- The token after position `i` is a substring of some lowercased body-part
name. -/
def partsAnyB (words : List String) (i : Nat) : Bool :=
  COMPOUND_PARTS.any fun p => pyIn (words.getD (i + 1) "") (strLower p)

/-- At index `i`, a keyword occurrence whose next token selects `part`. -/
def kwPartMatchAtB (words : List String) (kw : String) (i : Nat)
    (part : String) : Bool :=
  kwAtB words kw i && pyIn (words.getD (i + 1) "") (strLower part)

/-- The scan's `part_mentioned` flag: some keyword occurrence is followed by
a token that is a substring of some lowercased body-part name. -/
def partMentionedB (words : List String) (kw : String) : Bool :=
  (List.range words.length).any fun i => kwAtB words kw i && partsAnyB words i

/-- Some keyword occurrence selects this particular `part`. -/
def kwPartMatchB (words : List String) (kw : String) (part : String) : Bool :=
  (List.range words.length).any fun i => kwPartMatchAtB words kw i part

theorem partsFold_preserve {morphs : List (String × ℚ)} {next K : String} :
    ∀ (ps : List String), (∀ tv2 ∈ morphs, ∀ p ∈ ps, formatPart tv2.1 p ≠ K) →
      ∀ (st : Changes × Bool),
      List.lookup K (ps.foldl (compoundPartStep morphs next) st).1 =
        List.lookup K st.1 := by
  intro ps
  induction ps with
  | nil => intro _ st; rfl
  | cons q t ih =>
    intro h st
    rw [List.foldl_cons,
      ih (fun tv2 ht q2 hq2 => h tv2 ht q2 (List.mem_cons_of_mem _ hq2)) _]
    exact compoundPartStep_lookup fun tv2 ht => h tv2 ht q (List.mem_cons_self _ _)

theorem allPartsFold_preserve {morphs : List (String × ℚ)} {K : String} :
    ∀ (ps : List String), (∀ tv2 ∈ morphs, ∀ p ∈ ps, formatPart tv2.1 p ≠ K) →
      ∀ (d : Changes),
      List.lookup K (ps.foldl
        (fun d part => morphs.foldl (fun d tv => dinsert (formatPart tv.1 part) tv.2 d) d)
        d) = List.lookup K d := by
  intro ps
  induction ps with
  | nil => intro _ d; rfl
  | cons q t ih =>
    intro h d
    rw [List.foldl_cons,
      ih (fun tv2 ht q2 hq2 => h tv2 ht q2 (List.mem_cons_of_mem _ hq2)) _]
    exact lookup_foldl_dinsert_ne (fun tv2 => formatPart tv2.1 q) Prod.snd
      morphs d fun tv2 ht => h tv2 ht q (List.mem_cons_self _ _)

theorem compoundPartsFold_flag (morphs : List (String × ℚ)) (next : String) :
    ∀ (ps : List String) (st : Changes × Bool),
      (ps.foldl (compoundPartStep morphs next) st).2 =
        (st.2 || ps.any fun p => pyIn next (strLower p)) := by
  intro ps
  induction ps with
  | nil => intro st; simp
  | cons p t ih =>
    intro st
    rw [List.foldl_cons, ih, List.any_cons]
    have hstep : (compoundPartStep morphs next st p).2 =
        (st.2 || pyIn next (strLower p)) := by
      unfold compoundPartStep
      cases h : pyIn next (strLower p)
      · rw [cond_false]; simp
      · rw [cond_true]; simp
    rw [hstep, Bool.or_assoc]

theorem compoundPartsFold_lookup_eq {morphs : List (String × ℚ)} {next : String}
    {tv : String × ℚ} {part K : String} (htv : tv ∈ morphs)
    (hK : K = formatPart tv.1 part)
    (hfun : ∀ tv2 ∈ morphs, formatPart tv2.1 part = K → tv2.2 = tv.2)
    (hcross : ∀ tv2 ∈ morphs, ∀ p2, p2 ∈ COMPOUND_PARTS → p2 ≠ part →
      formatPart tv2.1 p2 ≠ K) :
    ∀ (ps : List String), part ∈ ps → ps.Nodup →
      (∀ p ∈ ps, p ∈ COMPOUND_PARTS) → ∀ (st : Changes × Bool),
      List.lookup K (ps.foldl (compoundPartStep morphs next) st).1 =
        bif pyIn next (strLower part) then some tv.2 else List.lookup K st.1 := by
  intro ps
  induction ps with
  | nil => intro hp; exact absurd hp (List.not_mem_nil _)
  | cons q t ih =>
    intro hp hnd hsub st
    rw [List.foldl_cons]
    by_cases hq : q = part
    · subst hq
      have hnt : q ∉ t := (List.nodup_cons.mp hnd).1
      have hrest : List.lookup K
          (t.foldl (compoundPartStep morphs next) (compoundPartStep morphs next st q)).1 =
          List.lookup K (compoundPartStep morphs next st q).1 :=
        partsFold_preserve t
          (fun tv2 ht2 p2 hp2 =>
            hcross tv2 ht2 p2 (hsub p2 (List.mem_cons_of_mem _ hp2))
              (fun he => hnt (he ▸ hp2))) _
      rw [hrest]
      unfold compoundPartStep
      cases h : pyIn next (strLower q)
      · rw [cond_false, cond_false]
      · rw [cond_true, cond_true]
        exact lookup_foldl_dinsert_eq (fun tv2 => formatPart tv2.1 q) Prod.snd
          morphs st.1 ⟨tv, htv, hK.symm, rfl⟩ hfun
    · have hpt : part ∈ t := by
        rcases List.mem_cons.mp hp with he | hm
        · exact absurd he.symm hq
        · exact hm
      rw [ih hpt (List.nodup_cons.mp hnd).2
        (fun p2 hp2 => hsub p2 (List.mem_cons_of_mem _ hp2)) _]
      rw [compoundPartStep_lookup fun tv2 ht2 =>
        hcross tv2 ht2 q (hsub q (List.mem_cons_self _ _)) hq]

theorem compoundAllParts_lookup_eq {morphs : List (String × ℚ)}
    {tv : String × ℚ} {part K : String} (htv : tv ∈ morphs)
    (hK : K = formatPart tv.1 part)
    (hfun : ∀ tv2 ∈ morphs, formatPart tv2.1 part = K → tv2.2 = tv.2)
    (hcross : ∀ tv2 ∈ morphs, ∀ p2, p2 ∈ COMPOUND_PARTS → p2 ≠ part →
      formatPart tv2.1 p2 ≠ K)
    (hpart : part ∈ COMPOUND_PARTS) (hnd : COMPOUND_PARTS.Nodup) (d : Changes) :
    List.lookup K (compoundAllParts morphs d) = some tv.2 := by
  unfold compoundAllParts
  have main : ∀ (ps : List String), part ∈ ps → ps.Nodup →
      (∀ p ∈ ps, p ∈ COMPOUND_PARTS) → ∀ (d2 : Changes),
      List.lookup K (ps.foldl
        (fun d part => morphs.foldl (fun d tv => dinsert (formatPart tv.1 part) tv.2 d) d)
        d2) = some tv.2 := by
    intro ps
    induction ps with
    | nil => intro hp; exact absurd hp (List.not_mem_nil _)
    | cons q t ih =>
      intro hp hnd2 hsub d2
      rw [List.foldl_cons]
      by_cases hq : q = part
      · subst hq
        have hnt : q ∉ t := (List.nodup_cons.mp hnd2).1
        rw [allPartsFold_preserve t
          (fun tv2 ht2 p2 hp2 =>
            hcross tv2 ht2 p2 (hsub p2 (List.mem_cons_of_mem _ hp2))
              (fun he => hnt (he ▸ hp2))) _]
        exact lookup_foldl_dinsert_eq (fun tv2 => formatPart tv2.1 q) Prod.snd
          morphs d2 ⟨tv, htv, hK.symm, rfl⟩ hfun
      · have hpt : part ∈ t := by
          rcases List.mem_cons.mp hp with he | hm
          · exact absurd he.symm hq
          · exact hm
        exact ih hpt (List.nodup_cons.mp hnd2).2
          (fun p2 hp2 => hsub p2 (List.mem_cons_of_mem _ hp2)) _
  exact main COMPOUND_PARTS hpart hnd (fun p hp => hp) d

theorem compoundIdxStep_flag {kw : String} {morphs : List (String × ℚ)}
    {words : List String} (st : Changes × Bool) (i : Nat) :
    (compoundIdxStep kw morphs words st i).2 =
      (st.2 || (kwAtB words kw i && partsAnyB words i)) := by
  unfold compoundIdxStep kwAtB partsAnyB
  cases h : words.getD i "" == kw && decide (i < words.length - 1)
  · rw [cond_false]; simp
  · rw [cond_true, compoundPartsFold_flag]; simp

theorem compoundIdxStep_lookup_eq {kw : String} {morphs : List (String × ℚ)}
    {words : List String} {tv : String × ℚ} {part K : String} (htv : tv ∈ morphs)
    (hK : K = formatPart tv.1 part)
    (hfun : ∀ tv2 ∈ morphs, formatPart tv2.1 part = K → tv2.2 = tv.2)
    (hcross : ∀ tv2 ∈ morphs, ∀ p2, p2 ∈ COMPOUND_PARTS → p2 ≠ part →
      formatPart tv2.1 p2 ≠ K)
    (hpart : part ∈ COMPOUND_PARTS) (hnd : COMPOUND_PARTS.Nodup)
    (st : Changes × Bool) (i : Nat) :
    List.lookup K (compoundIdxStep kw morphs words st i).1 =
      bif kwPartMatchAtB words kw i part then some tv.2
      else List.lookup K st.1 := by
  unfold compoundIdxStep kwPartMatchAtB kwAtB
  cases h : words.getD i "" == kw && decide (i < words.length - 1)
  · rw [cond_false]; simp
  · rw [cond_true, compoundPartsFold_lookup_eq htv hK hfun hcross COMPOUND_PARTS
      hpart hnd (fun p hp => hp) st]
    simp

theorem compoundIdxFold_flag {kw : String} {morphs : List (String × ℚ)}
    {words : List String} :
    ∀ (idxs : List Nat) (st : Changes × Bool),
      (idxs.foldl (compoundIdxStep kw morphs words) st).2 =
        (st.2 || idxs.any fun i => kwAtB words kw i && partsAnyB words i) := by
  intro idxs
  induction idxs with
  | nil => intro st; simp
  | cons i t ih =>
    intro st
    rw [List.foldl_cons, ih, List.any_cons, compoundIdxStep_flag, Bool.or_assoc]

theorem compoundIdxFold_lookup_eq {kw : String} {morphs : List (String × ℚ)}
    {words : List String} {tv : String × ℚ} {part K : String} (htv : tv ∈ morphs)
    (hK : K = formatPart tv.1 part)
    (hfun : ∀ tv2 ∈ morphs, formatPart tv2.1 part = K → tv2.2 = tv.2)
    (hcross : ∀ tv2 ∈ morphs, ∀ p2, p2 ∈ COMPOUND_PARTS → p2 ≠ part →
      formatPart tv2.1 p2 ≠ K)
    (hpart : part ∈ COMPOUND_PARTS) (hnd : COMPOUND_PARTS.Nodup) :
    ∀ (idxs : List Nat) (st : Changes × Bool),
      List.lookup K (idxs.foldl (compoundIdxStep kw morphs words) st).1 =
        bif idxs.any fun i => kwPartMatchAtB words kw i part then some tv.2
        else List.lookup K st.1 := by
  intro idxs
  induction idxs with
  | nil => intro st; simp
  | cons i t ih =>
    intro st
    rw [List.foldl_cons, ih,
      compoundIdxStep_lookup_eq htv hK hfun hcross hpart hnd st i, List.any_cons]
    cases h1 : kwPartMatchAtB words kw i part <;>
      cases h2 : t.any fun j => kwPartMatchAtB words kw j part <;> simp [h1, h2]

theorem compoundEntry_char {kw : String} {morphs : List (String × ℚ)}
    {words : List String} {tv : String × ℚ} {part K : String} (htv : tv ∈ morphs)
    (hK : K = formatPart tv.1 part)
    (hfun : ∀ tv2 ∈ morphs, formatPart tv2.1 part = K → tv2.2 = tv.2)
    (hcross : ∀ tv2 ∈ morphs, ∀ p2, p2 ∈ COMPOUND_PARTS → p2 ≠ part →
      formatPart tv2.1 p2 ≠ K)
    (hpart : part ∈ COMPOUND_PARTS) (hnd : COMPOUND_PARTS.Nodup) (d : Changes) :
    List.lookup K (compoundEntry kw morphs words d) =
      bif partMentionedB words kw then
        (bif kwPartMatchB words kw part then some tv.2 else List.lookup K d)
      else some tv.2 := by
  unfold compoundEntry partMentionedB kwPartMatchB
  dsimp only
  rw [show ((List.range words.length).foldl (compoundIdxStep kw morphs words)
      (d, false)).2 =
      ((List.range words.length).any fun i => kwAtB words kw i && partsAnyB words i)
    from by rw [compoundIdxFold_flag]; simp]
  cases hm : (List.range words.length).any fun i => kwAtB words kw i && partsAnyB words i
  · rw [cond_false, cond_false]
    exact compoundAllParts_lookup_eq htv hK hfun hcross hpart hnd _
  · rw [cond_true, cond_true,
      compoundIdxFold_lookup_eq htv hK hfun hcross hpart hnd _ _]

end SecondScript

namespace SecondScript

/-! ### Concept-pass lemmas and table facts -/

theorem conceptChanges_lookup_self {words : List String} {kw c : String}
    (h : conceptFind words = some (kw, c)) :
    List.lookup ("L1_" ++ c) (conceptChanges words) = some 1 := by
  unfold conceptChanges
  rw [h]
  exact lookup_dinsert_self _ _ _

theorem conceptChanges_lookup_ne {words : List String} {k : String}
    (hk : ∀ e ∈ CONCEPT_MAP, CONCEPT_SHAPE_KEY_PREFIX ++ e.2 ≠ k) :
    List.lookup k (conceptChanges words) = none := by
  unfold conceptChanges
  cases h : conceptFind words with
  | none => rfl
  | some p =>
    have hp : p ∈ CONCEPT_MAP := List.mem_of_find?_eq_some h
    rw [lookup_dinsert_ne (Ne.symm (hk p hp)) _ _]
    rfl

theorem conceptFind_of_unique {words : List String} {kw c : String}
    (hmem : (kw, c) ∈ CONCEPT_MAP) (hw : kw ∈ words)
    (hu : ∀ e ∈ CONCEPT_MAP, e.1 ∈ words → e.1 = kw) :
    conceptFind words = some (kw, c) := by
  unfold conceptFind
  have hsome : (CONCEPT_MAP.find? fun p => words.contains p.1).isSome := by
    rw [List.find?_isSome]
    exact ⟨(kw, c), hmem, by simpa using hw⟩
  rcases Option.isSome_iff_exists.mp hsome with ⟨e, he⟩
  have hpe0 := List.find?_some he
  have hpe : words.contains e.1 = true := by simpa using hpe0
  have hme : e ∈ CONCEPT_MAP := List.mem_of_find?_eq_some he
  have hke : e.1 = kw := hu e hme (by simpa using hpe)
  have hfun : ∀ a ∈ CONCEPT_MAP, ∀ b ∈ CONCEPT_MAP, a.1 = b.1 → a.2 = b.2 :=
    of_decide_eq_true (Eq.refl true)
  have hce : e.2 = c := hfun e hme (kw, c) hmem (by rw [hke])
  rw [he]
  rcases e with ⟨e1, e2⟩
  simp only at hke hce
  rw [hke, hce]

/-- Table-order precedence: the found concept entry is the first entry of
`CONCEPT_MAP` whose keyword occurs among the words. -/
theorem conceptFind_of_table_order {pre post : List (String × String)}
    {kw c : String} {words : List String}
    (htbl : CONCEPT_MAP = pre ++ (kw, c) :: post)
    (hpre : ∀ e ∈ pre, e.1 ∉ words) (hw : kw ∈ words) :
    conceptFind words = some (kw, c) := by
  unfold conceptFind
  rw [htbl]
  clear htbl
  induction pre with
  | nil =>
    rw [List.nil_append]
    unfold List.find?
    rw [show (words.contains (kw, c).1) = true by simpa using hw]
  | cons e t ih =>
    rw [List.cons_append]
    unfold List.find?
    rw [show (words.contains e.1) = false by
      simpa using hpre e (List.mem_cons_self _ _)]
    exact ih fun e2 he2 => hpre e2 (List.mem_cons_of_mem _ he2)

/-! ### Table facts established by kernel computation -/

theorem concept_keys_distinct :
    ∀ a ∈ CONCEPT_MAP, ∀ b ∈ CONCEPT_MAP, a.2 ≠ b.2 →
      "L1_" ++ a.2 ≠ "L1_" ++ b.2 := of_decide_eq_true (Eq.refl true)

theorem compound_keys_not_concept :
    ∀ e ∈ COMPOUND_MAP, ∀ tv ∈ e.2, ∀ p ∈ COMPOUND_PARTS, ∀ c ∈ CONCEPT_MAP,
      formatPart tv.1 p ≠ CONCEPT_SHAPE_KEY_PREFIX ++ c.2 :=
  of_decide_eq_true (Eq.refl true)

theorem feature_keys_not_concept :
    ∀ eth ∈ ETHNICITIES, ∀ t ∈ allFeatureTemplates, ∀ c ∈ CONCEPT_MAP,
      formatEth t eth ≠ CONCEPT_SHAPE_KEY_PREFIX ++ c.2 :=
  of_decide_eq_true (Eq.refl true)

theorem feature_keys_not_compound :
    ∀ eth ∈ ETHNICITIES, ∀ t ∈ allFeatureTemplates,
      ∀ e ∈ COMPOUND_MAP, ∀ tv ∈ e.2, ∀ p ∈ COMPOUND_PARTS,
      formatEth t eth ≠ formatPart tv.1 p :=
  of_decide_eq_true (Eq.refl true)

theorem compound_morphs_length : ∀ e ∈ COMPOUND_MAP, e.2.length = 1 :=
  of_decide_eq_true (Eq.refl true)

theorem mem_eq_of_length_one {α : Type} {l : List α} (h : l.length = 1)
    {a b : α} (ha : a ∈ l) (hb : b ∈ l) : a = b := by
  cases l with
  | nil => cases ha
  | cons x t =>
    cases t with
    | nil =>
      rcases List.mem_singleton.mp ha with rfl
      rcases List.mem_singleton.mp hb with rfl
      rfl
    | cons y t2 => simp at h

theorem compound_keys_cross :
    ∀ e ∈ COMPOUND_MAP, ∀ tv ∈ e.2, ∀ tv2 ∈ e.2, ∀ p ∈ COMPOUND_PARTS,
      ∀ p2 ∈ COMPOUND_PARTS, p2 ≠ p → formatPart tv2.1 p2 ≠ formatPart tv.1 p :=
  of_decide_eq_true (Eq.refl true)

theorem compound_parts_nodup : COMPOUND_PARTS.Nodup :=
  of_decide_eq_true (Eq.refl true)

theorem compound_map_keys_nodup : (COMPOUND_MAP.map Prod.fst).Nodup :=
  of_decide_eq_true (Eq.refl true)

/-! ### Assembly lemmas for `analyzeTokens` -/

theorem compoundPass_single {words : List String} {kw : String}
    {morphs : List (String × ℚ)} (hmem : (kw, morphs) ∈ COMPOUND_MAP)
    (hu : ∀ e ∈ COMPOUND_MAP, words.contains e.1 = true → e.1 = kw)
    (hact : words.contains kw = true) (d : Changes) :
    compoundPass words d = compoundEntry kw morphs words d :=
  table_fold_single (fun kw morphs d => compoundEntry kw morphs words d)
    words.contains COMPOUND_MAP d hmem compound_map_keys_nodup hu hact

/-- When no compound keyword occurs among the words, the compound pass is
the identity. -/
theorem compoundPass_inactive {words : List String}
    (h : ∀ e ∈ COMPOUND_MAP, words.contains e.1 = false) (d : Changes) :
    compoundPass words d = d := by
  unfold compoundPass
  have main : ∀ (tbl : List (String × List (String × ℚ))),
      (∀ e ∈ tbl, e ∈ COMPOUND_MAP) → ∀ (d : Changes),
      tbl.foldl
        (fun d p => bif words.contains p.1 then compoundEntry p.1 p.2 words d else d)
        d = d := by
    intro tbl
    induction tbl with
    | nil => intro _ d; rfl
    | cons e t ih =>
      intro hmem d
      rw [List.foldl_cons, h e (hmem e (List.mem_cons_self _ _)), cond_false]
      exact ih (fun q hq => hmem q (List.mem_cons_of_mem _ hq)) d
  exact main COMPOUND_MAP (fun e he => he) d

theorem analyzeTokens_eq (words : List String) :
    analyzeTokens words =
      featurePass (detectedEthnicity words) words
        (compoundPass words (conceptChanges words)) := rfl

theorem analyzeTokens_lookup_concept {words : List String} {ch : Changes}
    {kw c : String} (hfind : conceptFind words = some (kw, c))
    (hok : analyzeTokens words = some ch) :
    List.lookup ("L1_" ++ c) ch = some 1 := by
  rw [analyzeTokens_eq] at hok
  have heth := detectedEthnicity_mem words
  show List.lookup (CONCEPT_SHAPE_KEY_PREFIX ++ c) ch = some 1
  rw [featurePass_lookup_ne hok (fun t ht =>
    feature_keys_not_concept _ heth t ht (kw, c) (List.mem_of_find?_eq_some hfind)),
    compoundPass_lookup (fun e he tv htv p hp =>
      compound_keys_not_concept e he tv htv p hp (kw, c)
        (List.mem_of_find?_eq_some hfind))]
  exact conceptChanges_lookup_self hfind

theorem analyzeTokens_lookup_concept_ne {words : List String} {ch : Changes}
    {c2 : String} (hc2 : ∃ e ∈ CONCEPT_MAP, e.2 = c2)
    (hkey : ∀ e ∈ CONCEPT_MAP, conceptFind words = some e → e.2 ≠ c2)
    (hok : analyzeTokens words = some ch) :
    List.lookup ("L1_" ++ c2) ch = none := by
  rcases hc2 with ⟨e2, he2, hee⟩
  subst hee
  rw [analyzeTokens_eq] at hok
  have heth := detectedEthnicity_mem words
  show List.lookup (CONCEPT_SHAPE_KEY_PREFIX ++ e2.2) ch = none
  rw [featurePass_lookup_ne hok (fun t ht =>
    feature_keys_not_concept _ heth t ht e2 he2),
    compoundPass_lookup (fun e he tv htv p hp =>
      compound_keys_not_concept e he tv htv p hp e2 he2)]
  unfold conceptChanges
  cases hf : conceptFind words with
  | none => rfl
  | some p =>
    dsimp only
    have hp : p ∈ CONCEPT_MAP := List.mem_of_find?_eq_some hf
    have hpc : p.2 ≠ e2.2 := hkey p hp hf
    have hne : CONCEPT_SHAPE_KEY_PREFIX ++ e2.2 ≠ CONCEPT_SHAPE_KEY_PREFIX ++ p.2 :=
      Ne.symm (concept_keys_distinct p hp e2 he2 hpc)
    rw [lookup_dinsert_ne hne _ _]
    rfl

end SecondScript

/-- Membership after a fold of insertions: an entry was already there or
was inserted by some list element. -/
theorem mem_foldl_dinsert_keys {β : Type} (key : β → String) (val : β → ℚ) :
    ∀ (l : List β) (d : Changes) (p : String × ℚ),
      p ∈ l.foldl (fun d b => dinsert (key b) (val b) d) d →
      p ∈ d ∨ ∃ b ∈ l, p.1 = key b ∧ p.2 = val b := by
  intro l
  induction l with
  | nil => intro d p hp; exact Or.inl hp
  | cons b t ih =>
    intro d p hp
    rw [List.foldl_cons] at hp
    rcases ih _ _ hp with hm | ⟨b2, hb2, he⟩
    · rcases mem_dinsert hm with rfl | hm2
      · exact Or.inr ⟨b, List.mem_cons_self _ _, rfl, rfl⟩
      · exact Or.inl hm2
    · exact Or.inr ⟨b2, List.mem_cons_of_mem _ hb2, he⟩

namespace Bridge

/-! ### Bridge lemmas -/

/-- Every ethnicity the bridge can substitute. -/
def bridgeEthnicities : List String :=
  DEFAULT_ETHNICITY :: CONCEPT_MAP.map Prod.snd

theorem detectEthnicity_mem (keywords : List String) :
    detectEthnicity keywords ∈ bridgeEthnicities := by
  unfold detectEthnicity
  cases h : keywords.find? fun w => (List.lookup w CONCEPT_MAP).isSome with
  | none => exact List.mem_cons_self _ _
  | some w =>
    dsimp only
    have hp := List.find?_some h
    simp only at hp
    rcases Option.isSome_iff_exists.mp hp with ⟨c, hc⟩
    rw [hc]
    exact List.mem_cons_of_mem _
      (List.mem_map.mpr ⟨(w, c), lookup_mem hc, rfl⟩)

/-- Every template the bridge's feature tables can emit. -/
def bridgeTemplates : List String :=
  FEATURE_MAP.flatMap fun p => p.2.flatMap Prod.snd

theorem mem_bridgeTemplates {f m t : String}
    {mm : List (String × List String)} {ts : List String}
    (h1 : List.lookup f FEATURE_MAP = some mm)
    (h2 : List.lookup m mm = some ts) (ht : t ∈ ts) :
    t ∈ bridgeTemplates :=
  List.mem_flatMap.mpr ⟨(f, mm), lookup_mem h1,
    List.mem_flatMap.mpr ⟨(m, ts), lookup_mem h2, ht⟩⟩

theorem mapTraitsMods_mem {ethnicity : String} {tpv : ℚ}
    {mm : List (String × List String)} :
    ∀ (mods : List (String × ℚ)) (d : Changes) (p : String × ℚ),
      p ∈ mapTraitsMods ethnicity tpv mm mods d →
      p ∈ d ∨ ∃ mv ∈ mods, ∃ ts, List.lookup mv.1 mm = some ts ∧
        ∃ t ∈ ts, p.1 = formatEth t ethnicity ∧ p.2 = mv.2 * tpv := by
  intro mods
  induction mods with
  | nil => intro d p hp; exact Or.inl hp
  | cons mv t ih =>
    intro d p hp
    unfold mapTraitsMods at hp
    rw [List.foldl_cons] at hp
    rcases ih _ _ hp with hm | ⟨mv2, hmv2, hrest⟩
    · cases hl : List.lookup mv.1 mm with
      | none => rw [hl] at hm; exact Or.inl hm
      | some ts =>
        rw [hl] at hm
        rcases mem_foldl_dinsert_keys (fun t => formatEth t ethnicity)
          (fun _ => mv.2 * tpv) ts _ _ hm with hm2 | ⟨t2, ht2, he1, he2⟩
        · exact Or.inl hm2
        · exact Or.inr ⟨mv, List.mem_cons_self _ _, ts, hl, t2, ht2, he1, he2⟩
    · exact Or.inr ⟨mv2, List.mem_cons_of_mem _ hmv2, hrest⟩

theorem mapTraitsFeature_mem {ethnicity : String} {tpv : ℚ}
    {fp : String × List (String × ℚ)} {d : Changes} {p : String × ℚ}
    (hp : p ∈ mapTraitsFeature ethnicity tpv fp d) :
    p ∈ d ∨ ∃ mm, List.lookup fp.1 FEATURE_MAP = some mm ∧
      ∃ mv ∈ fp.2, ∃ ts, List.lookup mv.1 mm = some ts ∧
        ∃ t ∈ ts, p.1 = formatEth t ethnicity ∧ p.2 = mv.2 * tpv := by
  unfold mapTraitsFeature at hp
  cases ho : fp.1 == "overall" <;> rw [ho] at hp
  · rw [cond_false] at hp
    cases hl : List.lookup fp.1 FEATURE_MAP with
    | none => rw [hl] at hp; exact Or.inl hp
    | some mm =>
      rw [hl] at hp
      rcases mapTraitsMods_mem _ _ _ hp with hm | hrest
      · exact Or.inl hm
      · exact Or.inr ⟨mm, rfl, hrest⟩
  · rw [cond_true] at hp; exact Or.inl hp

theorem mapTraitsToFeatures_mem {traits : Changes} {ethnicity : String}
    {p : String × ℚ} (hp : p ∈ mapTraitsToFeatures traits ethnicity) :
    ∃ tp ∈ traits, ∃ tf, traitFeatureTables tp.1 = some tf ∧
      ∃ fp ∈ tf, ∃ mm, List.lookup fp.1 FEATURE_MAP = some mm ∧
        ∃ mv ∈ fp.2, ∃ ts, List.lookup mv.1 mm = some ts ∧
          ∃ t ∈ ts, p.1 = formatEth t ethnicity ∧ p.2 = mv.2 * tp.2 := by
  unfold mapTraitsToFeatures at hp
  have main : ∀ (trs : Changes) (d : Changes),
      p ∈ trs.foldl
        (fun changes tp =>
          match traitFeatureTables tp.1 with
          | none => changes
          | some tf =>
            tf.foldl (fun changes fp => mapTraitsFeature ethnicity tp.2 fp changes)
              changes) d →
      p ∈ d ∨ ∃ tp ∈ trs, ∃ tf, traitFeatureTables tp.1 = some tf ∧
        ∃ fp ∈ tf, ∃ mm, List.lookup fp.1 FEATURE_MAP = some mm ∧
          ∃ mv ∈ fp.2, ∃ ts, List.lookup mv.1 mm = some ts ∧
            ∃ t ∈ ts, p.1 = formatEth t ethnicity ∧ p.2 = mv.2 * tp.2 := by
    intro trs
    induction trs with
    | nil => intro d hp2; exact Or.inl hp2
    | cons tp t ih =>
      intro d hp2
      rw [List.foldl_cons] at hp2
      rcases ih _ hp2 with hm | ⟨tp2, htp2, hrest⟩
      · cases hl : traitFeatureTables tp.1 with
        | none => rw [hl] at hm; exact Or.inl hm
        | some tf =>
          rw [hl] at hm
          have inner : ∀ (fps : List (String × List (String × ℚ))) (d2 : Changes),
              p ∈ fps.foldl
                (fun changes fp => mapTraitsFeature ethnicity tp.2 fp changes) d2 →
              p ∈ d2 ∨ ∃ fp ∈ fps, ∃ mm, List.lookup fp.1 FEATURE_MAP = some mm ∧
                ∃ mv ∈ fp.2, ∃ ts, List.lookup mv.1 mm = some ts ∧
                  ∃ t2 ∈ ts, p.1 = formatEth t2 ethnicity ∧ p.2 = mv.2 * tp.2 := by
            intro fps
            induction fps with
            | nil => intro d2 hp3; exact Or.inl hp3
            | cons fp f2 ih2 =>
              intro d2 hp3
              rw [List.foldl_cons] at hp3
              rcases ih2 _ hp3 with hm2 | ⟨fp2, hfp2, hr⟩
              · rcases mapTraitsFeature_mem hm2 with hm3 | ⟨mm, hl2, hr⟩
                · exact Or.inl hm3
                · exact Or.inr ⟨fp, List.mem_cons_self _ _, mm, hl2, hr⟩
              · exact Or.inr ⟨fp2, List.mem_cons_of_mem _ hfp2, hr⟩
          rcases inner tf _ hm with hm2 | ⟨fp, hfp, hr⟩
          · exact Or.inl hm2
          · exact Or.inr ⟨tp, List.mem_cons_self _ _, tf, hl, fp, hfp, hr⟩
      · exact Or.inr ⟨tp2, List.mem_cons_of_mem _ htp2, hrest⟩
  rcases main traits [] hp with hm | h
  · exact absurd hm (List.not_mem_nil p)
  · exact h

end Bridge

/-- An association-list lookup misses every key the sought key differs
from. -/
theorem lookup_eq_none_of_no_key {α β : Type} [BEq α] [LawfulBEq α] {k : α} :
    ∀ {l : List (α × β)}, (∀ e ∈ l, k ≠ e.1) → List.lookup k l = none := by
  intro l
  induction l with
  | nil => intro _; rfl
  | cons e t ih =>
    intro h
    rcases e with ⟨a, b⟩
    have hne : (k == a) = false :=
      beq_eq_false_iff_ne.mpr (h (a, b) (List.mem_cons_self _ _))
    simp only [List.lookup, hne]
    exact ih fun e2 he2 => h e2 (List.mem_cons_of_mem _ he2)

/-- An association-list lookup on a key-distinct list finds the member. -/
theorem lookup_of_mem_nodup {α β : Type} [BEq α] [LawfulBEq α] {k : α} {v : β} :
    ∀ {l : List (α × β)}, (k, v) ∈ l → (l.map Prod.fst).Nodup →
      List.lookup k l = some v := by
  intro l
  induction l with
  | nil => intro h _; exact absurd h (List.not_mem_nil _)
  | cons e t ih =>
    intro hmem hnd
    rcases e with ⟨a, b⟩
    rcases List.mem_cons.mp hmem with he | hm
    · cases he
      simp [List.lookup]
    · have hka : k ≠ a := by
        intro hka
        have : a ∈ t.map Prod.fst :=
          List.mem_map.mpr ⟨(k, v), hm, by rw [hka]⟩
        exact absurd this (by simpa using (List.nodup_cons.mp hnd).1)
      have hne : (k == a) = false := beq_eq_false_iff_ne.mpr hka
      simp only [List.lookup, hne]
      exact ih hm (by simpa using (List.nodup_cons.mp hnd).2)

namespace Bridge

theorem bridge_personality_bounds :
    ∀ tr ∈ PERSONALITY_TO_FEATURES, ∀ fp ∈ tr.2, ∀ mv ∈ fp.2,
      0 ≤ mv.2 ∧ mv.2 ≤ 1 := by
  intro tr htr
  fin_cases htr <;>
    · intro fp hfp
      fin_cases hfp <;>
        · intro mv hmv
          fin_cases hmv <;> norm_num

theorem bridge_contextual_bounds :
    ∀ tr ∈ CONTEXTUAL_FEATURES, ∀ fp ∈ tr.2, ∀ mv ∈ fp.2,
      0 ≤ mv.2 ∧ mv.2 ≤ 1 := by
  intro tr htr
  fin_cases htr <;>
    · intro fp hfp
      fin_cases hfp <;>
        · intro mv hmv
          fin_cases hmv <;> norm_num

theorem bridge_intensity_bounds :
    ∀ p ∈ INTENSITY_MAP, 0 ≤ p.2 ∧ p.2 ≤ 1 := by
  intro p hp
  fin_cases hp <;> norm_num

theorem traitFeatureTables_bounds {trait : String}
    {tf : List (String × List (String × ℚ))}
    (h : traitFeatureTables trait = some tf) :
    ∀ fp ∈ tf, ∀ mv ∈ fp.2, 0 ≤ mv.2 ∧ mv.2 ≤ 1 := by
  unfold traitFeatureTables at h
  cases hl : List.lookup trait PERSONALITY_TO_FEATURES with
  | some tf2 =>
    rw [hl] at h
    cases h
    exact bridge_personality_bounds _ (lookup_mem hl)
  | none =>
    rw [hl] at h
    exact bridge_contextual_bounds _ (lookup_mem h)

theorem detectPersonalityTraits_vals01 (words : List String) :
    vals01 (detectPersonalityTraits words) := by
  unfold detectPersonalityTraits
  have main : ∀ (ws : List String) (d : Changes), vals01 d →
      vals01 (ws.foldl
        (fun d w =>
          if (List.lookup w PERSONALITY_TO_FEATURES).isSome then dinsert w 1 d
          else if (List.lookup w CONTEXTUAL_FEATURES).isSome then dinsert w 1 d
          else d) d) := by
    intro ws
    induction ws with
    | nil => intro d hd; exact hd
    | cons w t ih =>
      intro d hd
      rw [List.foldl_cons]
      refine ih _ ?_
      by_cases h1 : (List.lookup w PERSONALITY_TO_FEATURES).isSome = true
      · rw [if_pos h1]; exact vals01_dinsert hd (by norm_num) _
      · rw [if_neg h1]
        by_cases h2 : (List.lookup w CONTEXTUAL_FEATURES).isSome = true
        · rw [if_pos h2]; exact vals01_dinsert hd (by norm_num) _
        · rw [if_neg h2]; exact hd
  exact main words [] vals01_nil

theorem mapTraitsToFeatures_vals01 {traits : Changes} {ethnicity : String}
    (ht : vals01 traits) : vals01 (mapTraitsToFeatures traits ethnicity) := by
  intro p hp
  rcases mapTraitsToFeatures_mem hp with
    ⟨tp, htp, tf, htf, fp, hfp, mm, _, mv, hmv, ts, _, t, _, _, hval⟩
  have h1 := traitFeatureTables_bounds htf fp hfp mv hmv
  have h2 := ht tp htp
  rw [hval]
  constructor
  · exact mul_nonneg h1.1 h2.1
  · calc mv.2 * tp.2 ≤ 1 * 1 :=
      mul_le_mul h1.2 h2.2 h2.1 (by norm_num)
    _ = 1 := by norm_num

theorem bridgeFeatureStep_cases (eth : String) (words : List String)
    (d : Changes) (i : Nat) :
    bridgeFeatureStep eth words d i = d ∨
    ∃ mm ts v, List.lookup (words.getD i "") FEATURE_MAP = some mm ∧
      (∃ m, List.lookup m mm = some ts) ∧ (0 ≤ v ∧ v ≤ 1) ∧
      bridgeFeatureStep eth words d i =
        ts.foldl (fun d t => dinsert (formatEth t eth) v d) d := by
  unfold bridgeFeatureStep
  cases h1 : List.lookup (words.getD i "") FEATURE_MAP with
  | none => left; rfl
  | some mm =>
    dsimp only
    by_cases h2 : 0 < i
    · rw [if_pos h2]
      cases h3 : List.lookup (words.getD (i - 1) "") mm with
      | none => left; rfl
      | some ts =>
        right
        refine ⟨mm, ts, _, rfl, ⟨_, h3⟩, ?_, rfl⟩
        by_cases h4 : 1 < i
        · rw [if_pos h4]
          cases h5 : List.lookup (words.getD (i - 2) "") INTENSITY_MAP with
          | none =>
            rw [Option.getD_none]
            norm_num [DEFAULT_VALUE]
          | some v =>
            rw [Option.getD_some]
            exact bridge_intensity_bounds _ (lookup_mem h5)
        · rw [if_neg h4]
          norm_num [DEFAULT_VALUE]
    · rw [if_neg h2]; left; rfl

theorem bridgeFeaturePass_lookup_ne {eth : String} {words : List String}
    {k : String} (hk : ∀ t ∈ bridgeTemplates, formatEth t eth ≠ k) :
    ∀ (idxs : List Nat) (d : Changes),
      List.lookup k (idxs.foldl (bridgeFeatureStep eth words) d) =
        List.lookup k d := by
  intro idxs
  induction idxs with
  | nil => intro d; rfl
  | cons i t ih =>
    intro d
    rw [List.foldl_cons, ih]
    rcases bridgeFeatureStep_cases eth words d i with h | ⟨mm, ts, v, h1, ⟨m, h2⟩, _, h⟩
    · rw [h]
    · rw [h]
      exact lookup_foldl_dinsert_ne (fun t => formatEth t eth) (fun _ => v) ts d
        fun t ht => hk t (mem_bridgeTemplates h1 h2 ht)

theorem bridgeFeaturePass_vals01 {eth : String} {words : List String} :
    ∀ (idxs : List Nat) (d : Changes), vals01 d →
      vals01 (idxs.foldl (bridgeFeatureStep eth words) d) := by
  intro idxs
  induction idxs with
  | nil => intro d hd; exact hd
  | cons i t ih =>
    intro d hd
    rw [List.foldl_cons]
    refine ih _ ?_
    rcases bridgeFeatureStep_cases eth words d i with h | ⟨mm, ts, v, _, _, hv, h⟩
    · rw [h]; exact hd
    · rw [h]
      exact vals01_foldl_dinsert (fun t => formatEth t eth) (fun _ => v) ts d hd
        fun _ _ => hv

end Bridge

namespace Bridge

theorem bridge_concept_keys_nodup : (CONCEPT_MAP.map Prod.fst).Nodup :=
  of_decide_eq_true (Eq.refl true)

theorem bridge_feature_keys_not_L1 :
    ∀ eth ∈ bridgeEthnicities, ∀ t ∈ bridgeTemplates, ∀ e ∈ CONCEPT_MAP,
      formatEth t eth ≠ "L1_" ++ e.2 :=
  of_decide_eq_true (Eq.refl true)

theorem detectEthnicity_of_unique {keywords : List String} {kw c : String}
    (hmem : (kw, c) ∈ CONCEPT_MAP) (hw : kw ∈ keywords)
    (hu : ∀ e ∈ CONCEPT_MAP, e.1 ∈ keywords → e.1 = kw) :
    detectEthnicity keywords = c := by
  unfold detectEthnicity
  have hlk : List.lookup kw CONCEPT_MAP = some c :=
    lookup_of_mem_nodup hmem bridge_concept_keys_nodup
  have hsome : (keywords.find? fun w => (List.lookup w CONCEPT_MAP).isSome).isSome := by
    rw [List.find?_isSome]
    exact ⟨kw, hw, by rw [hlk]; rfl⟩
  rcases Option.isSome_iff_exists.mp hsome with ⟨w, hfw⟩
  have hpw := List.find?_some hfw
  simp only at hpw
  rcases Option.isSome_iff_exists.mp hpw with ⟨c2, hc2⟩
  have hwmem : w ∈ keywords := List.mem_of_find?_eq_some hfw
  have hwkw : w = kw := hu (w, c2) (lookup_mem hc2) hwmem
  subst hwkw
  have hcc : c2 = c := by
    rw [hlk] at hc2
    injection hc2 with h
    exact h.symm
  rw [hfw]
  dsimp only
  rw [hc2, Option.getD_some, hcc]

theorem detectEthnicity_of_prefix {pre post : List String} {kw c : String}
    (hmem : (kw, c) ∈ CONCEPT_MAP)
    (hpre : ∀ w ∈ pre, ∀ e ∈ CONCEPT_MAP, w ≠ e.1) :
    detectEthnicity (pre ++ kw :: post) = c := by
  unfold detectEthnicity
  have hlk : List.lookup kw CONCEPT_MAP = some c :=
    lookup_of_mem_nodup hmem bridge_concept_keys_nodup
  have hfind : ((pre ++ kw :: post).find?
      fun w => (List.lookup w CONCEPT_MAP).isSome) = some kw := by
    induction pre with
    | nil =>
      rw [List.nil_append]
      unfold List.find?
      rw [show ((List.lookup kw CONCEPT_MAP).isSome) = true from by rw [hlk]; rfl]
    | cons w t ih =>
      rw [List.cons_append]
      unfold List.find?
      rw [show ((List.lookup w CONCEPT_MAP).isSome) = false from by
        rw [lookup_eq_none_of_no_key fun e he =>
          hpre w (List.mem_cons_self _ _) e he]
        rfl]
      exact ih fun w2 hw2 => hpre w2 (List.mem_cons_of_mem _ hw2)
  rw [hfind]
  dsimp only
  rw [hlk, Option.getD_some]

theorem smartChanges_lookup_concept {keywords : List String} {c : String}
    (hc : ∃ e ∈ CONCEPT_MAP, e.2 = c) (heth : detectEthnicity keywords = c) :
    (c ≠ DEFAULT_ETHNICITY →
      List.lookup ("L1_" ++ c) (smartChanges keywords) = some 1) ∧
    (c = DEFAULT_ETHNICITY →
      List.lookup ("L1_" ++ c) (smartChanges keywords) = none) := by
  rcases hc with ⟨ec, hec, hee⟩
  have hceth : c ∈ bridgeEthnicities := heth ▸ detectEthnicity_mem keywords
  have hk : ∀ t ∈ bridgeTemplates, formatEth t c ≠ "L1_" ++ c := by
    intro t ht
    have := bridge_feature_keys_not_L1 c hceth t ht ec hec
    rw [hee] at this
    exact this
  have hkey : ∀ kv ∈ mapTraitsToFeatures (detectPersonalityTraits keywords) c,
      kv.1 ≠ "L1_" ++ c := by
    intro kv hkv
    rcases mapTraitsToFeatures_mem hkv with
      ⟨tp, htp, tf, htf, fp, hfp, mm, hmm, mv, hmv, ts2, hts2, t, htts, hkey2, _⟩
    rw [hkey2]
    exact hk t (mem_bridgeTemplates hmm hts2 htts)
  unfold smartChanges
  rw [heth]
  dsimp only
  constructor
  · intro hne
    rw [if_pos hne]
    unfold bridgeFeaturePass
    rw [bridgeFeaturePass_lookup_ne hk _ _,
      lookup_foldl_dinsert_ne Prod.fst Prod.snd _ _ hkey]
    exact lookup_dinsert_self _ _ _
  · intro heq
    rw [if_neg (by rw [heq]; exact fun h => h rfl)]
    unfold bridgeFeaturePass
    rw [bridgeFeaturePass_lookup_ne hk _ _,
      lookup_foldl_dinsert_ne Prod.fst Prod.snd _ _ hkey]
    rfl

theorem smartChanges_vals01 (keywords : List String) :
    vals01 (smartChanges keywords) := by
  unfold smartChanges
  apply bridgeFeaturePass_vals01
  refine vals01_foldl_dinsert Prod.fst Prod.snd _ _ ?_ ?_
  · by_cases h : detectEthnicity keywords ≠ DEFAULT_ETHNICITY
    · rw [if_pos h]
      exact vals01_dinsert vals01_nil (by norm_num) _
    · rw [if_neg h]
      exact vals01_nil
  · intro kv hkv
    exact mapTraitsToFeatures_vals01
      (detectPersonalityTraits_vals01 keywords) kv hkv

end Bridge

/-! ### Substring containment facts -/

theorem startsWith_iff : ∀ {n h : List Char},
    startsWith n h = true ↔ ∃ t, h = n ++ t := by
  intro n
  induction n with
  | nil => intro h; simp [startsWith]
  | cons a as ih =>
    intro h
    cases h with
    | nil =>
      simp only [startsWith]
      constructor
      · intro hf; cases hf
      · rintro ⟨t, ht⟩; cases ht
    | cons b bs =>
      simp only [startsWith, Bool.and_eq_true, beq_iff_eq]
      constructor
      · rintro ⟨rfl, hs⟩
        rcases ih.mp hs with ⟨t, rfl⟩
        exact ⟨t, rfl⟩
      · rintro ⟨t, ht⟩
        injection ht with h1 h2
        exact ⟨h1.symm ▸ rfl, ih.mpr ⟨t, h2⟩⟩

theorem subListOf_iff : ∀ {n h : List Char},
    subListOf n h = true ↔ ∃ l r, h = l ++ (n ++ r) := by
  intro n h
  induction h with
  | nil =>
    simp only [subListOf, List.isEmpty_iff]
    constructor
    · rintro rfl; exact ⟨[], [], rfl⟩
    · rintro ⟨l, r, hlr⟩
      rcases List.append_eq_nil.mp hlr.symm with ⟨rfl, h2⟩
      exact (List.append_eq_nil.mp h2).1
  | cons c t ih =>
    simp only [subListOf, Bool.or_eq_true]
    constructor
    · rintro (hs | hs)
      · rcases startsWith_iff.mp hs with ⟨r, hr⟩
        exact ⟨[], r, by rw [hr]; rfl⟩
      · rcases ih.mp hs with ⟨l, r, hlr⟩
        exact ⟨c :: l, r, by rw [List.cons_append, hlr]⟩
    · rintro ⟨l, r, hlr⟩
      cases l with
      | nil =>
        left
        exact startsWith_iff.mpr ⟨r, by simpa using hlr⟩
      | cons c2 l2 =>
        right
        rw [List.cons_append] at hlr
        injection hlr with h1 h2
        exact ih.mpr ⟨l2, r, h2⟩

theorem pyIn_trans {a b c : String} (h1 : pyIn a b = true)
    (h2 : pyIn b c = true) : pyIn a c = true := by
  unfold pyIn at h1 h2 ⊢
  rcases subListOf_iff.mp h1 with ⟨l1, r1, he1⟩
  rcases subListOf_iff.mp h2 with ⟨l2, r2, he2⟩
  refine subListOf_iff.mpr ⟨l2 ++ l1, r1 ++ r2, ?_⟩
  rw [he2, he1]
  simp [List.append_assoc]

theorem pyIn_strLower {n s : String} (hn : strLower n = n)
    (h : pyIn n s = true) : pyIn n (strLower s) = true := by
  unfold pyIn at h ⊢
  rcases subListOf_iff.mp h with ⟨l, r, he⟩
  refine subListOf_iff.mpr
    ⟨l.map Char.toLower, r.map Char.toLower, ?_⟩
  have hs : (strLower s).data = s.data.map Char.toLower := rfl
  have hnd : n.data.map Char.toLower = n.data := by
    have : (strLower n).data = n.data := by rw [hn]
    exact this
  rw [hs, he]
  simp only [List.map_append]
  rw [hnd]

namespace BasicScript

/-! ### Lemmas for the first-variant script -/

/-- Every shape key the basic feature pass can emit. -/
def basicAllKeys : List String :=
  feature_map.flatMap fun p => p.2.flatMap Prod.snd

theorem mem_basicAllKeys {f m k : String}
    {mm : List (String × List String)} {ks : List String}
    (h1 : List.lookup f feature_map = some mm)
    (h2 : List.lookup m mm = some ks) (hk : k ∈ ks) :
    k ∈ basicAllKeys :=
  List.mem_flatMap.mpr ⟨(f, mm), lookup_mem h1,
    List.mem_flatMap.mpr ⟨(m, ks), lookup_mem h2, hk⟩⟩

theorem basicFeatureStep_cases (words : List String) (d : Changes) (i : Nat) :
    basicFeatureStep words d i = d ∨
    ∃ mm ks v, List.lookup (words.getD i "") feature_map = some mm ∧
      (∃ m, List.lookup m mm = some ks) ∧
      basicFeatureStep words d i =
        ks.foldl (fun d k => dinsert k v d) d := by
  unfold basicFeatureStep
  cases h1 : List.lookup (words.getD i "") feature_map with
  | none => left; rfl
  | some mm =>
    dsimp only
    by_cases h2 : 0 < i
    · rw [if_pos h2]
      cases h3 : List.lookup (words.getD (i - 1) "") mm with
      | none => left; rfl
      | some ks =>
        right
        exact ⟨mm, ks, _, rfl, ⟨_, h3⟩, rfl⟩
    · rw [if_neg h2]; left; rfl

theorem basicFeaturePass_lookup_ne {words : List String} {k : String}
    (hk : k ∉ basicAllKeys) :
    ∀ (idxs : List Nat) (d : Changes),
      List.lookup k (idxs.foldl (basicFeatureStep words) d) =
        List.lookup k d := by
  intro idxs
  induction idxs with
  | nil => intro d; rfl
  | cons i t ih =>
    intro d
    rw [List.foldl_cons, ih]
    rcases basicFeatureStep_cases words d i with h | ⟨mm, ks, v, h1, ⟨m, h2⟩, h⟩
    · rw [h]
    · rw [h]
      exact lookup_foldl_dinsert_ne id (fun _ => v) ks d
        fun k2 hk2 he => hk (he ▸ mem_basicAllKeys h1 h2 hk2)

end BasicScript

/-! ## Claim theorems -/

open SecondScript in
/-- C1 (counterexample): on the end-to-end prompt, the chin-length
parameter `L2_Asian_Chin_SizeZ_max` is emitted at the default value 7/10,
not at the intensity table's value 9/10 for "very" ("very" precedes
"asian" and "small", but not "long"), so the claimed change set is wrong
about the chin parameter. -/
theorem C1_counterexample :
    processPromptChanges
        "a very asian face with a long chin, full lips and very small eyes" =
      some [("L1_Asian", 1), ("L2_Asian_Chin_SizeZ_max", 7/10),
            ("L2_Asian_Mouth_UpperlipVolume_max", 7/10),
            ("L2_Asian_Mouth_LowerlipVolume_max", 7/10),
            ("L2__Eyes_Size_min", 9/10)] ∧
    List.lookup "very" INTENSITY_MAP = some (9/10) ∧
    (7 : ℚ)/10 ≠ 9/10 :=
  ⟨rfl, rfl, by norm_num⟩

open SecondScript in
/-- C1 (amended): the end-to-end prompt produces the Asian category
activation at 1.0, the chin-length parameter at the **default** value 0.7
(no intensity word immediately precedes "long"), both lip-volume
parameters at the default value 0.7, and the eye-size parameter at the
intensity table's value 0.9 for "very". -/
theorem C1_amended_theorem :
    (processPromptChanges
        "a very asian face with a long chin, full lips and very small eyes").isSome
      = true ∧
    List.lookup "L1_Asian"
      ((processPromptChanges
        "a very asian face with a long chin, full lips and very small eyes").getD [])
      = some 1 ∧
    List.lookup "L2_Asian_Chin_SizeZ_max"
      ((processPromptChanges
        "a very asian face with a long chin, full lips and very small eyes").getD [])
      = some DEFAULT_VALUE ∧
    List.lookup "L2_Asian_Mouth_UpperlipVolume_max"
      ((processPromptChanges
        "a very asian face with a long chin, full lips and very small eyes").getD [])
      = some DEFAULT_VALUE ∧
    List.lookup "L2_Asian_Mouth_LowerlipVolume_max"
      ((processPromptChanges
        "a very asian face with a long chin, full lips and very small eyes").getD [])
      = some DEFAULT_VALUE ∧
    List.lookup "L2__Eyes_Size_min"
      ((processPromptChanges
        "a very asian face with a long chin, full lips and very small eyes").getD [])
      = List.lookup "very" INTENSITY_MAP :=
  ⟨rfl, rfl, rfl, rfl, rfl, rfl⟩

/-- C2 (counterexample): "a caucasian man" contains exactly one
concept-table keyword as a token, yet `process_and_apply_smart_prompt` in
`blender_bridge.py` produces an empty change set: the category-activation
parameter `L1_Caucasian` is absent because the detected category equals
the default. -/
theorem C2_counterexample :
    Bridge.bridgeKeywords "a caucasian man" = ["caucasian", "man"] ∧
    Bridge.detectEthnicity ["caucasian", "man"] = "Caucasian" ∧
    Bridge.processSmartPromptChanges "a caucasian man" = [] ∧
    List.lookup "L1_Caucasian"
      (Bridge.processSmartPromptChanges "a caucasian man") = none :=
  ⟨rfl, rfl, rfl, rfl⟩

/-- C2 (amended): for a prompt whose tokens contain exactly one
concept-table keyword, `second_script.py` always emits the category
activation at 1.0 and substitutes that category (even when it equals the
default), while `blender_bridge.py` substitutes that category but emits
the `L1_` activation only when the category differs from the default
"Caucasian"; when it equals the default, no activation parameter appears
in its change set. -/
theorem C2_amended_theorem :
    (∀ (words : List String) (ch : Changes) (kw c : String),
      (kw, c) ∈ SecondScript.CONCEPT_MAP → kw ∈ words →
      (∀ e ∈ SecondScript.CONCEPT_MAP, e.1 ∈ words → e.1 = kw) →
      SecondScript.analyzeTokens words = some ch →
      List.lookup ("L1_" ++ c) ch = some 1 ∧
        SecondScript.detectedEthnicity words = c) ∧
    (∀ (keywords : List String) (kw c : String),
      (kw, c) ∈ Bridge.CONCEPT_MAP → kw ∈ keywords →
      (∀ e ∈ Bridge.CONCEPT_MAP, e.1 ∈ keywords → e.1 = kw) →
      Bridge.detectEthnicity keywords = c ∧
      (c ≠ Bridge.DEFAULT_ETHNICITY →
        List.lookup ("L1_" ++ c) (Bridge.smartChanges keywords) = some 1) ∧
      (c = Bridge.DEFAULT_ETHNICITY →
        List.lookup ("L1_" ++ c) (Bridge.smartChanges keywords) = none)) := by
  constructor
  · intro words ch kw c hmem hw hu hok
    have hfind := SecondScript.conceptFind_of_unique hmem hw hu
    refine ⟨SecondScript.analyzeTokens_lookup_concept hfind hok, ?_⟩
    unfold SecondScript.detectedEthnicity
    rw [hfind]
  · intro keywords kw c hmem hw hu
    have hdet := Bridge.detectEthnicity_of_unique hmem hw hu
    have hsc := Bridge.smartChanges_lookup_concept ⟨(kw, c), hmem, rfl⟩ hdet
    exact ⟨hdet, hsc.1, hsc.2⟩

/-- C2 witness: concrete instances of the amended claim at
`["asian", "man"]` (second script, non-default category) and
`["caucasian", "man"]` (bridge, default category, activation absent). -/
theorem C2_amended_witness :
    (List.lookup ("L1_" ++ "Asian") [("L1_Asian", (1 : ℚ))] = some 1 ∧
     SecondScript.detectedEthnicity ["asian", "man"] = "Asian") ∧
    (Bridge.detectEthnicity ["caucasian", "man"] = "Caucasian" ∧
     List.lookup ("L1_" ++ "Caucasian")
       (Bridge.smartChanges ["caucasian", "man"]) = none) :=
  ⟨C2_amended_theorem.1 ["asian", "man"] [("L1_Asian", 1)] "asian" "Asian"
      (of_decide_eq_true (Eq.refl true)) (of_decide_eq_true (Eq.refl true))
      (of_decide_eq_true (Eq.refl true)) rfl,
   by
    have h := C2_amended_theorem.2 ["caucasian", "man"] "caucasian" "Caucasian"
      (of_decide_eq_true (Eq.refl true)) (of_decide_eq_true (Eq.refl true))
      (of_decide_eq_true (Eq.refl true))
    exact ⟨h.1, h.2.2 rfl⟩⟩

/-- C3 (counterexample): `apply_morph` of `second_script.py` stores the
value as given; at value 3/2 it stores 3/2, which exceeds 1.0 and differs
from `min(1.0, 3/2) = 1`. -/
theorem C3_counterexample :
    applyMorphSS ["Chin"] (fun _ => 0) "Chin" (3/2) "Chin" = 3/2 ∧
    ¬ ((3 : ℚ)/2 ≤ 1) ∧ min (1 : ℚ) (3/2) = 1 :=
  ⟨rfl, by norm_num, by norm_num [min_def]⟩

/-- C3 (amended): on an exposed shape key, the bridge applier stores
`min(1.0, value)` while the second-script applier stores the raw value; on
a missing shape key both appliers leave the state unchanged, and neither
applier touches any other key. -/
theorem C3_amended_theorem :
    ∀ (exposed : List String) (st : String → ℚ) (name : String) (v : ℚ),
    (exposed.contains name = true →
      applyMorphBridge exposed st name v name = min 1 v ∧
      applyMorphSS exposed st name v name = v) ∧
    (exposed.contains name = false →
      applyMorphBridge exposed st name v = st ∧
      applyMorphSS exposed st name v = st) ∧
    (∀ k, k ≠ name →
      applyMorphBridge exposed st name v k = st k ∧
      applyMorphSS exposed st name v k = st k) := by
  intro ex st n v
  have hb : (n == n) = true := beq_self_eq_true n
  refine ⟨?_, ?_, ?_⟩
  · intro h
    unfold applyMorphBridge applyMorphSS
    rw [h]
    constructor
    · rw [cond_true]
      show (bif n == n then min 1 v else st n) = min 1 v
      rw [hb, cond_true]
    · rw [cond_true]
      show (bif n == n then v else st n) = v
      rw [hb, cond_true]
  · intro h
    unfold applyMorphBridge applyMorphSS
    rw [h]
    exact ⟨rfl, rfl⟩
  · intro k hk
    unfold applyMorphBridge applyMorphSS
    cases hc : ex.contains n
    · exact ⟨rfl, rfl⟩
    · rw [cond_true, cond_true]
      have hkn : (k == n) = false := beq_eq_false_iff_ne.mpr hk
      constructor
      · show (bif k == n then min 1 v else st k) = st k
        rw [hkn, cond_false]
      · show (bif k == n then v else st k) = st k
        rw [hkn, cond_false]

/-- C3 witness: at an exposed key with value 3/2, the bridge applier
stores `min 1 (3/2)` and the second-script applier stores 3/2. -/
theorem C3_amended_witness :
    applyMorphBridge ["Chin"] (fun _ => 0) "Chin" (3/2) "Chin" = min 1 ((3 : ℚ)/2) ∧
    applyMorphSS ["Chin"] (fun _ => 0) "Chin" (3/2) "Chin" = 3/2 :=
  ( C3_amended_theorem ["Chin"] (fun _ => 0) "Chin" (3/2)).1 rfl

/-- C4 (counterexample): in "an asian caucasian man" the token "asian"
occurs before "caucasian", yet `second_script.py` honours "caucasian"
(the first entry in `CONCEPT_MAP`'s iteration order), emitting
`L1_Caucasian` and no `L1_Asian`. -/
theorem C4_counterexample :
    pyFindallWords (strLower "an asian caucasian man") =
      ["an", "asian", "caucasian", "man"] ∧
    SecondScript.processPromptChanges "an asian caucasian man" =
      some [("L1_Caucasian", 1)] ∧
    List.lookup "L1_Asian" [("L1_Caucasian", (1 : ℚ))] = none :=
  ⟨rfl, rfl, rfl⟩

/-- C4 (amended): exactly one category is honoured and the other concept
keywords contribute nothing, but in `second_script.py` precedence is the
concept table's iteration order (caucasian, asian, african, elf, dwarf),
not prompt token order; the bridge's `smart_prompt_analysis` does use
first occurrence in token order. -/
theorem C4_amended_theorem :
    (∀ (words : List String) (ch : Changes)
      (pre post : List (String × String)) (kw c : String),
      SecondScript.CONCEPT_MAP = pre ++ (kw, c) :: post →
      (∀ e ∈ pre, e.1 ∉ words) → kw ∈ words →
      SecondScript.analyzeTokens words = some ch →
      List.lookup ("L1_" ++ c) ch = some 1 ∧
      (∀ e ∈ SecondScript.CONCEPT_MAP, e.2 ≠ c →
        List.lookup ("L1_" ++ e.2) ch = none) ∧
      SecondScript.detectedEthnicity words = c) ∧
    (∀ (pre post : List String) (kw c : String),
      (kw, c) ∈ Bridge.CONCEPT_MAP →
      (∀ w ∈ pre, ∀ e ∈ Bridge.CONCEPT_MAP, w ≠ e.1) →
      Bridge.detectEthnicity (pre ++ kw :: post) = c) := by
  constructor
  · intro words ch pre post kw c htbl hpre hw hok
    have hfind := SecondScript.conceptFind_of_table_order htbl hpre hw
    refine ⟨SecondScript.analyzeTokens_lookup_concept hfind hok, ?_, ?_⟩
    · intro e he hec
      refine SecondScript.analyzeTokens_lookup_concept_ne ⟨e, he, rfl⟩ ?_ hok
      intro e2 he2 hf2
      rw [hfind] at hf2
      injection hf2 with h2
      rw [← h2]
      exact fun hcc => hec hcc.symm
    · unfold SecondScript.detectedEthnicity
      rw [hfind]
  · intro pre post kw c hmem hpre
    exact Bridge.detectEthnicity_of_prefix hmem hpre

/-- C4 witness: "asian caucasian" honours Caucasian (table order) in the
second script; the bridge's detection honours "asian" when it is the first
concept token. -/
theorem C4_amended_witness :
    List.lookup ("L1_" ++ "Caucasian") [("L1_Caucasian", (1 : ℚ))] = some 1 ∧
    List.lookup ("L1_" ++ "Asian") [("L1_Caucasian", (1 : ℚ))] = none ∧
    SecondScript.detectedEthnicity ["asian", "caucasian"] = "Caucasian" ∧
    Bridge.detectEthnicity (["an"] ++ "asian" :: ["man"]) = "Asian" := by
  have h := C4_amended_theorem.1 ["asian", "caucasian"] [("L1_Caucasian", 1)]
    [] [("asian", "Asian"), ("african", "African"), ("elf", "Elf"), ("dwarf", "Dwarf")]
    "caucasian" "Caucasian" rfl
    (fun e he => absurd he (List.not_mem_nil e))
    (of_decide_eq_true (Eq.refl true)) rfl
  exact ⟨h.1,
    h.2.1 ("asian", "Asian") (of_decide_eq_true (Eq.refl true))
      (of_decide_eq_true (Eq.refl true)),
    h.2.2,
    C4_amended_theorem.2 ["an"] ["man"] "asian" "Asian"
      (of_decide_eq_true (Eq.refl true)) (of_decide_eq_true (Eq.refl true))⟩

namespace SecondScript

/-- The (feature, modifier) pairs of `FEATURE_MAP` whose modifier has no
antonym in `ANTONYM_MAP` (absent, or mapped to the `None` sentinel). -/
def noAntonymPairs : List (String × String) :=
  FEATURE_MAP.flatMap fun fm =>
    (fm.2.filter fun m =>
      match List.lookup m.1 ANTONYM_MAP with
      | some (some _) => false
      | _ => true).map fun m => (fm.1, m.1)

/-- The expected change set for modifier `m` of feature `f` at value `v`:
each of the modifier's templates, instantiated with the default ethnicity. -/
def c5Expected (f m : String) (v : ℚ) : Option Changes :=
  (List.lookup f FEATURE_MAP).bind fun mm =>
    (List.lookup m mm).map fun ts =>
      ts.map fun t => (formatEth t DEFAULT_ETHNICITY, v)

end SecondScript

open SecondScript in
/-- C5: the mapper's results on "a man with a long chin" and "a man with a
not long chin" differ exactly by substituting the antonym "short" for
"long" at the same value 0.7; and for every (feature, modifier) pair whose
modifier has no antonym in the table, negation emits the same parameters
with the value forced to 0. -/
theorem C5_theorem :
    (processPromptChanges "a man with a long chin" =
        some [("L2_Caucasian_Chin_SizeZ_max", DEFAULT_VALUE)] ∧
     processPromptChanges "a man with a not long chin" =
        some [("L2_Caucasian_Chin_SizeZ_min", DEFAULT_VALUE)] ∧
     List.lookup "long" ANTONYM_MAP = some (some "short") ∧
     c5Expected "chin" "long" DEFAULT_VALUE =
        some [("L2_Caucasian_Chin_SizeZ_max", DEFAULT_VALUE)] ∧
     c5Expected "chin" "short" DEFAULT_VALUE =
        some [("L2_Caucasian_Chin_SizeZ_min", DEFAULT_VALUE)]) ∧
    (∀ fm ∈ noAntonymPairs,
      analyzeTokens ["a", "man", "with", "a", fm.2, fm.1] =
        c5Expected fm.1 fm.2 DEFAULT_VALUE ∧
      analyzeTokens ["a", "man", "with", "a", "not", fm.2, fm.1] =
        c5Expected fm.1 fm.2 0) := by
  refine ⟨⟨rfl, rfl, rfl, rfl, rfl⟩, ?_⟩
  intro fm hfm
  rw [show noAntonymPairs =
    [("chin", "prominent"), ("chin", "cleft"), ("eyes", "wide-set"),
     ("eyes", "narrow-set"), ("nose", "pointy"), ("nose", "upturned"),
     ("jaw", "strong"), ("ears", "pointed")] from rfl] at hfm
  simp only [List.mem_cons, List.not_mem_nil, or_false] at hfm
  rcases hfm with rfl | rfl | rfl | rfl | rfl | rfl | rfl | rfl <;>
    exact ⟨rfl, rfl⟩

open SecondScript in
/-- C5 witness: the no-antonym clause at the pair (chin, cleft): the
positive prompt emits the cleft parameter at 0.7, the negated prompt
emits the same parameter at 0. -/
theorem C5_witness :
    analyzeTokens ["a", "man", "with", "a", "cleft", "chin"] =
      c5Expected "chin" "cleft" DEFAULT_VALUE ∧
    analyzeTokens ["a", "man", "with", "a", "not", "cleft", "chin"] =
      c5Expected "chin" "cleft" 0 :=
  C5_theorem.2 ("chin", "cleft") (of_decide_eq_true (Eq.refl true))

open SecondScript in
/-- C6 (counterexample): in "a man with muscular arms" the compound
keyword is immediately followed by "arms", which is a substring of the two
lowercased part names `Arms_Upperarm` and `Arms_Forearm`; the mapper emits
exactly those two parameters — neither "every entry of the body-part
list" (8 entries: `Abdomen`'s key is absent) nor "only that part"
(a single entry). -/
theorem C6_counterexample :
    processPromptChanges "a man with muscular arms" =
      some [("L2__Arms_Upperarm_Mass-Tone_min-max", 1),
            ("L2__Arms_Forearm_Mass-Tone_min-max", 1)] ∧
    List.lookup "L2__Abdomen_Mass-Tone_min-max"
      [("L2__Arms_Upperarm_Mass-Tone_min-max", (1 : ℚ)),
       ("L2__Arms_Forearm_Mass-Tone_min-max", (1 : ℚ))] = none ∧
    COMPOUND_PARTS.length = 8 :=
  ⟨rfl, rfl, rfl⟩

/-- C6 (amended): for a prompt containing exactly one compound whole-body
keyword, when no occurrence of the keyword is immediately followed by a
token occurring as a substring of some lowercased body-part name, the
keyword's parameter is emitted at the table value for every entry of the
body-part list; when some occurrence is so followed, emission is
restricted to exactly the parts whose lowercased names contain the
following token as a substring — possibly several parts, not one. -/
theorem C6_amended_theorem :
    ∀ (words : List String) (kw : String) (morphs : List (String × ℚ))
      (ch : Changes),
      (kw, morphs) ∈ SecondScript.COMPOUND_MAP →
      words.contains kw = true →
      (∀ e ∈ SecondScript.COMPOUND_MAP, words.contains e.1 = true → e.1 = kw) →
      SecondScript.analyzeTokens words = some ch →
      ∀ tv ∈ morphs, ∀ part ∈ SecondScript.COMPOUND_PARTS,
        List.lookup (formatPart tv.1 part) ch =
          bif SecondScript.partMentionedB words kw then
            (bif SecondScript.kwPartMatchB words kw part then some tv.2 else none)
          else some tv.2 := by
  intro words kw morphs ch hmem hact hu hok tv htv part hpart
  have heth := SecondScript.detectedEthnicity_mem words
  rw [SecondScript.analyzeTokens_eq] at hok
  have hfk : ∀ t ∈ SecondScript.allFeatureTemplates,
      formatEth t (SecondScript.detectedEthnicity words) ≠ formatPart tv.1 part :=
    fun t ht => SecondScript.feature_keys_not_compound _ heth t ht
      (kw, morphs) hmem tv htv part hpart
  rw [SecondScript.featurePass_lookup_ne hok hfk,
    SecondScript.compoundPass_single hmem hu hact]
  have hfun : ∀ tv2 ∈ morphs,
      formatPart tv2.1 part = formatPart tv.1 part → tv2.2 = tv.2 := by
    intro tv2 htv2 _
    rw [SecondScript.mem_eq_of_length_one
      (SecondScript.compound_morphs_length (kw, morphs) hmem) htv2 htv]
  have hcross : ∀ tv2 ∈ morphs, ∀ p2, p2 ∈ SecondScript.COMPOUND_PARTS →
      p2 ≠ part → formatPart tv2.1 p2 ≠ formatPart tv.1 part :=
    fun tv2 htv2 p2 hp2 hne =>
      SecondScript.compound_keys_cross (kw, morphs) hmem tv htv tv2 htv2
        part hpart p2 hp2 hne
  rw [SecondScript.compoundEntry_char htv rfl hfun hcross hpart
    SecondScript.compound_parts_nodup _]
  rw [SecondScript.conceptChanges_lookup_ne fun cc hcc =>
    Ne.symm (SecondScript.compound_keys_not_concept (kw, morphs) hmem tv htv
      part hpart cc hcc)]

open SecondScript in
/-- C6 witness: "a muscular chest" — "chest" is a substring of exactly the
lowercased part name `Chest`, so emission is restricted to that single
part. -/
theorem C6_amended_witness :
    List.lookup (formatPart "L2__{part}_Mass-Tone_min-max" "Chest")
      [("L2__Chest_Mass-Tone_min-max", (1 : ℚ))] =
      bif partMentionedB ["a", "muscular", "chest"] "muscular" then
        (bif kwPartMatchB ["a", "muscular", "chest"] "muscular" "Chest"
          then some 1 else none)
      else some 1 :=
  C6_amended_theorem ["a", "muscular", "chest"] "muscular"
    [("L2__{part}_Mass-Tone_min-max", 1)] [("L2__Chest_Mass-Tone_min-max", 1)]
    (List.mem_cons_self _ _) rfl (of_decide_eq_true (Eq.refl true)) rfl
    ("L2__{part}_Mass-Tone_min-max", 1) (List.mem_singleton.mpr rfl)
    "Chest" (of_decide_eq_true (Eq.refl true))

/-- C7: applying a change set is idempotent — the applier first resets
every exposed shape key to 0.0 and then sets each entry, so a second
application yields the same final values — and the final values on the
exposed shape keys do not depend on the state before the first
application. -/
theorem C7_theorem :
    (∀ (exposed : List String) (changes : Changes) (st : String → ℚ),
      applyChangeSet exposed changes (applyChangeSet exposed changes st) =
        applyChangeSet exposed changes st) ∧
    (∀ (exposed : List String) (changes : Changes) (st st' : String → ℚ)
      (k : String), exposed.contains k = true →
      applyChangeSet exposed changes st k = applyChangeSet exposed changes st' k) := by
  constructor
  · intro ex ch st
    funext k
    cases hk : ex.contains k
    · rw [applyChangeSet_not_exposed hk]
    · exact applyChangeSet_agree ex ch _ st k hk
  · intro ex ch st st' k hk
    exact applyChangeSet_agree ex ch st st' k hk

/-- C7 witness: with one exposed key, two different start states yield the
same applied value. -/
theorem C7_witness :
    applyChangeSet ["Chin"] [("Chin", (1 : ℚ)/2)] (fun _ => 0) "Chin" =
      applyChangeSet ["Chin"] [("Chin", (1 : ℚ)/2)] (fun _ => 3) "Chin" :=
  C7_theorem.2 ["Chin"] [("Chin", 1/2)] (fun _ => 0) (fun _ => 3) "Chin" rfl

/-- C8: whenever a request document exists at a watcher tick (monitoring
active), the tick handler writes a response document whose status is
"completed" or "error", removes the request document — including when
parsing the request raises and when the prompt matches nothing — and
returns the 0.5-second poll interval so the watch loop keeps running. -/
theorem C8_theorem :
    ∀ (sceneHas : String → Bool) (fs : Bridge.BridgeFiles),
      fs.request.isSome = true →
      ((Bridge.checkForRequests true sceneHas fs).1.response = some "completed" ∨
       (Bridge.checkForRequests true sceneHas fs).1.response = some "error") ∧
      (Bridge.checkForRequests true sceneHas fs).1.request = none ∧
      (Bridge.checkForRequests true sceneHas fs).2 = some (1/2) := by
  intro sceneHas fs hreq
  unfold Bridge.checkForRequests
  rw [if_neg (by simp)]
  cases hr : fs.request with
  | none => rw [hr] at hreq; exact Bool.noConfusion hreq
  | some req =>
    cases req with
    | none => exact ⟨Or.inr rfl, rfl, rfl⟩
    | some prompt =>
      dsimp only
      cases hscene : sceneHas
          (if Bridge.detectGender (Bridge.bridgeKeywords prompt) == "female"
            then "mb_female" else "mb_male")
      · exact ⟨Or.inr rfl, rfl, rfl⟩
      · exact ⟨Or.inl rfl, rfl, rfl⟩

/-- C8 witness: the `__STATUS_CHECK__` request matches no keywords (its
change set is empty), yet the tick still writes a "completed" response,
removes the request, and returns the poll interval. -/
theorem C8_witness :
    Bridge.processSmartPromptChanges "__STATUS_CHECK__" = [] ∧
    (((Bridge.checkForRequests true (fun n => n == "mb_male")
        ⟨some (some "__STATUS_CHECK__"), none⟩).1.response = some "completed" ∨
      (Bridge.checkForRequests true (fun n => n == "mb_male")
        ⟨some (some "__STATUS_CHECK__"), none⟩).1.response = some "error") ∧
     (Bridge.checkForRequests true (fun n => n == "mb_male")
        ⟨some (some "__STATUS_CHECK__"), none⟩).1.request = none ∧
     (Bridge.checkForRequests true (fun n => n == "mb_male")
        ⟨some (some "__STATUS_CHECK__"), none⟩).2 = some (1/2)) :=
  ⟨rfl, C8_theorem (fun n => n == "mb_male")
    ⟨some (some "__STATUS_CHECK__"), none⟩ rfl⟩

/-- C9: every value in the parameter-change mapping built by the
second-script mapper for any token list, and by the bridge's smart
builder for any keyword list, lies in the interval [0, 1]. -/
theorem C9_theorem :
    (∀ (words : List String) (ch : Changes),
      SecondScript.analyzeTokens words = some ch →
      ∀ p ∈ ch, 0 ≤ p.2 ∧ p.2 ≤ 1) ∧
    (∀ keywords : List String,
      ∀ p ∈ Bridge.smartChanges keywords, 0 ≤ p.2 ∧ p.2 ≤ 1) := by
  constructor
  · intro words ch hok
    exact SecondScript.featurePass_vals01
      (SecondScript.compoundPass_vals01 _ (SecondScript.conceptChanges_vals01 words))
      hok
  · intro keywords
    exact Bridge.smartChanges_vals01 keywords

/-- C9 witness: concrete emissions of both builders lie in [0, 1]. -/
theorem C9_witness :
    (0 ≤ (7 : ℚ)/10 ∧ (7 : ℚ)/10 ≤ 1) ∧ (0 ≤ (7 : ℚ)/10 ∧ (7 : ℚ)/10 ≤ 1) :=
  ⟨C9_theorem.1 ["a", "long", "chin"] [("L2_Caucasian_Chin_SizeZ_max", 7/10)] rfl
      ("L2_Caucasian_Chin_SizeZ_max", 7/10) (List.mem_singleton.mpr rfl),
   C9_theorem.2 ["big", "eyes"] ("L2__Eyes_Size_max", 7/10)
      (by
        rw [show Bridge.smartChanges ["big", "eyes"] =
          [("L2__Eyes_Size_max", 7/10)] from rfl]
        exact List.mem_cons_self _ _)⟩

/-- C10: the first-variant mapper detects concepts by substring
containment over the whole lowercased prompt with no early exit: every
prompt containing "caucasian" activates both `L1_Caucasian` and
`L1_Asian` at 1.0, because "asian" is a substring of "caucasian". -/
theorem C10_theorem :
    ∀ (prompt : String), pyIn "caucasian" prompt = true →
      List.lookup "L1_Caucasian" (BasicScript.basicAnalyze prompt) = some 1 ∧
      List.lookup "L1_Asian" (BasicScript.basicAnalyze prompt) = some 1 := by
  intro prompt hc
  have hlow : pyIn "caucasian" (strLower prompt) = true := pyIn_strLower rfl hc
  have hasian : pyIn "asian" (strLower prompt) = true :=
    pyIn_trans (show pyIn "asian" "caucasian" = true from rfl) hlow
  unfold BasicScript.basicAnalyze
  dsimp only
  unfold BasicScript.basicFeaturePass
  have hnc : "L1_Caucasian" ∉ BasicScript.basicAllKeys :=
    of_decide_eq_true (Eq.refl true)
  have hna : "L1_Asian" ∉ BasicScript.basicAllKeys :=
    of_decide_eq_true (Eq.refl true)
  rw [BasicScript.basicFeaturePass_lookup_ne hnc _ _,
    BasicScript.basicFeaturePass_lookup_ne hna _ _]
  unfold BasicScript.ethnicityPass BasicScript.ethnicity_map
  rw [List.foldl_cons, List.foldl_cons, List.foldl_cons, List.foldl_nil]
  rw [if_pos hlow, if_pos hasian]
  have hdCa : ∀ d : Changes,
      List.lookup "L1_Caucasian"
        (if pyIn "african" (strLower prompt) = true
          then dinsert "L1_African" 1 d else d) =
      List.lookup "L1_Caucasian" d := by
    intro d
    by_cases h : pyIn "african" (strLower prompt) = true
    · rw [if_pos h, lookup_dinsert_ne (by decide) _ _]
    · rw [if_neg h]
  have hdAs : ∀ d : Changes,
      List.lookup "L1_Asian"
        (if pyIn "african" (strLower prompt) = true
          then dinsert "L1_African" 1 d else d) =
      List.lookup "L1_Asian" d := by
    intro d
    by_cases h : pyIn "african" (strLower prompt) = true
    · rw [if_pos h, lookup_dinsert_ne (by decide) _ _]
    · rw [if_neg h]
  constructor
  · rw [hdCa, lookup_dinsert_ne (by decide) _ _]
    exact lookup_dinsert_self _ _ _
  · rw [hdAs]
    exact lookup_dinsert_self _ _ _

/-- C10 witness: the prompt "a caucasian man" activates both categories. -/
theorem C10_witness :
    List.lookup "L1_Caucasian" (BasicScript.basicAnalyze "a caucasian man") =
      some 1 ∧
    List.lookup "L1_Asian" (BasicScript.basicAnalyze "a caucasian man") =
      some 1 :=
  C10_theorem "a caucasian man" rfl
